import Mathlib

/-!
Verification of the BrowserCAD computational-geometry core.

This file gives a shallow embedding, over the real numbers, of the geometry
module of BrowserCAD (`src/js/geometry.js`): primitive intersection math,
segment decomposition, arc-membership tests, trim operations, the
fillet/chamfer solver, the priority-ordered snap resolver, and the
bounding-box QuadTree spatial index (the latter over the rationals, since it
uses only field operations and comparisons).  JavaScript numbers are modelled
as exact reals; `null` results are modelled as `Option.none`; the stable
`Array.prototype.sort` is modelled by `List.mergeSort`, which is stable.

The numeric utility library `Utils` is not part of the repository sources
(the geometry module calls it as an external collaborator), so its handful
of functions are modelled from the specification's description of them.
-/

open Real

open scoped Classical

/-- A 2D point `{x, y}` with real coordinates. -/
structure Pt where
  x : ℝ
  y : ℝ

namespace Utils

/-- Modelled from the spec: `Utils.dist`, the Euclidean distance between two
points (the numeric utility library is missing from the sources). -/
noncomputable def dist (a b : Pt) : ℝ :=
  Real.sqrt ((b.x - a.x) ^ 2 + (b.y - a.y) ^ 2)

/-- Modelled from the spec: `Utils.vector`, the displacement vector from the
first point to the second (as used by the line-circle solver, where
`vector(lineP1, lineP2)` is the segment direction). -/
def vector (a b : Pt) : Pt :=
  ⟨b.x - a.x, b.y - a.y⟩

/-- Modelled from the spec: `Utils.dot`, the 2D dot product. -/
def dot (u v : Pt) : ℝ :=
  u.x * v.x + u.y * v.y

/-- Modelled from the spec: `Utils.midpoint`, the component-wise average of
two points. -/
noncomputable def midpoint (a b : Pt) : Pt :=
  ⟨(a.x + b.x) / 2, (a.y + b.y) / 2⟩

/-- The two-argument arctangent, as JavaScript's `Math.atan2(y, x)` behaves
on (non-signed-zero) real inputs: range `(-π, π]`, with `atan2 0 0 = 0`. -/
noncomputable def atan2 (y x : ℝ) : ℝ :=
  if 0 < x then Real.arctan (y / x)
  else if x < 0 then
    (if 0 ≤ y then Real.arctan (y / x) + π else Real.arctan (y / x) - π)
  else
    (if 0 < y then π / 2 else if y < 0 then -π / 2 else 0)

/-- Modelled from the spec: `Utils.angle`, the direction angle of the vector
from the first point to the second. -/
noncomputable def angle (a b : Pt) : ℝ :=
  atan2 (b.y - a.y) (b.x - a.x)

/-- Modelled from the spec: `Utils.polarPoint`, the point at a given angle
and radius from a center. -/
noncomputable def polarPoint (c : Pt) (ang r : ℝ) : Pt :=
  ⟨c.x + r * Real.cos ang, c.y + r * Real.sin ang⟩

/-- Modelled from the spec: `Utils.closestPointOnSegment`, the projection of
a point onto a segment with the parameter clamped to `[0, 1]`. -/
noncomputable def closestPointOnSegment (p a b : Pt) : Pt :=
  let dx := b.x - a.x
  let dy := b.y - a.y
  let lengthSq := dx * dx + dy * dy
  if lengthSq = 0 then a
  else
    let t := max 0 (min 1 (((p.x - a.x) * dx + (p.y - a.y) * dy) / lengthSq))
    ⟨a.x + t * dx, a.y + t * dy⟩

/-- Rounding as JavaScript's `Math.round`: half-way cases go up. -/
noncomputable def jsRound (x : ℝ) : ℤ :=
  ⌊x + 1 / 2⌋

/-- Modelled from the spec: `Utils.snapPointToGrid`, the nearest grid point
(each coordinate rounded to the nearest multiple of the grid size). -/
noncomputable def snapPointToGrid (p : Pt) (gridSize : ℝ) : Pt :=
  ⟨(jsRound (p.x / gridSize) : ℝ) * gridSize, (jsRound (p.y / gridSize) : ℝ) * gridSize⟩

/-- Modelled from the spec: `Utils.uniquePoints`, point deduplication by
proximity (the spec's point epsilon 1e-6), keeping first occurrences. -/
noncomputable def uniquePoints (pts : List Pt) : List Pt :=
  pts.foldl (fun acc p => if ∃ q ∈ acc, dist q p < 1e-6 then acc else acc ++ [p]) []

end Utils

/-- The canonical primitive derived from an entity for intersection purposes.
The source also produces an `ellipse`-tagged segment, which no intersection
routine consumes. -/
inductive Segment where
  | line (p1 p2 : Pt)
  | circle (center : Pt) (r : ℝ)
  | arc (center : Pt) (r start end_ : ℝ)
  | ellipse (center : Pt) (rx ry rotation : ℝ)

/-- The tagged variant of drawable entity kinds the geometry core dispatches
on.  `other` stands for every entity kind that reaches only the `default`
branches of the source's switches (text, image, dimension, hatch, ...). -/
inductive Shape where
  | line (p1 p2 : Pt)
  | circle (center : Pt) (r : ℝ)
  | arc (center : Pt) (r start end_ : ℝ)
  | rect (p1 p2 : Pt)
  | polyline (points : List Pt)
  | ellipse (center : Pt) (rx ry rotation : ℝ)
  | point (position : Pt)
  | other

/-- An entity record: an identity (JavaScript object identity / `id` field)
together with its geometric payload. -/
structure Entity where
  id : ℕ
  shape : Shape

namespace Geometry

/-- Embeds `Geometry.lineLineIntersection`: infinite line-line intersection
via the 2x2 determinant, `none` when `|d| < 1e-10`. -/
noncomputable def lineLineIntersection (p1 p2 p3 p4 : Pt) : Option Pt :=
  let d := (p2.x - p1.x) * (p4.y - p3.y) - (p2.y - p1.y) * (p4.x - p3.x)
  if |d| < 1e-10 then none
  else
    let t := ((p3.x - p1.x) * (p4.y - p3.y) - (p3.y - p1.y) * (p4.x - p3.x)) / d
    some ⟨p1.x + t * (p2.x - p1.x), p1.y + t * (p2.y - p1.y)⟩

/-- Embeds `Geometry.segmentSegmentIntersection`: bounded segment-segment
intersection, requiring both parameters in `[0, 1]`. -/
noncomputable def segmentSegmentIntersection (p1 p2 p3 p4 : Pt) : Option Pt :=
  let d := (p2.x - p1.x) * (p4.y - p3.y) - (p2.y - p1.y) * (p4.x - p3.x)
  if |d| < 1e-10 then none
  else
    let t := ((p3.x - p1.x) * (p4.y - p3.y) - (p3.y - p1.y) * (p4.x - p3.x)) / d
    let u := ((p3.x - p1.x) * (p2.y - p1.y) - (p3.y - p1.y) * (p2.x - p1.x)) / d
    if 0 ≤ t ∧ t ≤ 1 ∧ 0 ≤ u ∧ u ≤ 1 then
      some ⟨p1.x + t * (p2.x - p1.x), p1.y + t * (p2.y - p1.y)⟩
    else none

/-- Embeds `Geometry.lineCircleIntersection`: the segment is parametrised as
`p1 + t (p2 - p1)` and the quadratic is solved; roots kept for `t ∈ [0, 1]`,
the second dropped when `|t2 - t1| ≤ 1e-10`. -/
noncomputable def lineCircleIntersection (lineP1 lineP2 center : Pt) (radius : ℝ) : List Pt :=
  let d := Utils.vector lineP1 lineP2
  let f := Utils.vector center lineP1
  let a := Utils.dot d d
  let b := 2 * Utils.dot f d
  let c := Utils.dot f f - radius * radius
  let discriminant := b * b - 4 * a * c
  if discriminant < 0 then []
  else
    let sq := Real.sqrt discriminant
    let t1 := (-b - sq) / (2 * a)
    let t2 := (-b + sq) / (2 * a)
    let pts1 : List Pt :=
      if 0 ≤ t1 ∧ t1 ≤ 1 then [⟨lineP1.x + t1 * d.x, lineP1.y + t1 * d.y⟩] else []
    let pts2 : List Pt :=
      if 0 ≤ t2 ∧ t2 ≤ 1 ∧ 1e-10 < |t2 - t1| then
        [⟨lineP1.x + t2 * d.x, lineP1.y + t2 * d.y⟩]
      else []
    pts1 ++ pts2

/-- Embeds `Geometry.circleCircleIntersection`: closed-form two-circle
intersection, empty when too far apart, nested, or coincident. -/
noncomputable def circleCircleIntersection (c1 : Pt) (r1 : ℝ) (c2 : Pt) (r2 : ℝ) : List Pt :=
  let d := Utils.dist c1 c2
  if r1 + r2 < d then []
  else if d < |r1 - r2| then []
  else if d = 0 ∧ r1 = r2 then []
  else
    let a := (r1 * r1 - r2 * r2 + d * d) / (2 * d)
    let h := Real.sqrt (r1 * r1 - a * a)
    let px := c1.x + a * (c2.x - c1.x) / d
    let py := c1.y + a * (c2.y - c1.y) / d
    [⟨px + h * (c2.y - c1.y) / d, py - h * (c2.x - c1.x) / d⟩,
     ⟨px - h * (c2.y - c1.y) / d, py + h * (c2.x - c1.x) / d⟩]

/-- Embeds `Geometry.getEntitySegments`: decomposition of an entity into
canonical segments (the polyline loop `i < points.length - 1` is rendered by
zipping the point list with its tail). -/
def getEntitySegments (entity : Entity) : List Segment :=
  match entity.shape with
  | .line p1 p2 => [.line p1 p2]
  | .polyline points => (points.zip points.tail).map fun q => .line q.1 q.2
  | .rect p1 p2 =>
      [.line ⟨p1.x, p1.y⟩ ⟨p2.x, p1.y⟩,
       .line ⟨p2.x, p1.y⟩ ⟨p2.x, p2.y⟩,
       .line ⟨p2.x, p2.y⟩ ⟨p1.x, p2.y⟩,
       .line ⟨p1.x, p2.y⟩ ⟨p1.x, p1.y⟩]
  | .circle center r => [.circle center r]
  | .arc center r s e => [.arc center r s e]
  | .ellipse center rx ry rot => [.ellipse center rx ry rot]
  | _ => []

/-- Embeds `Geometry.isPointOnArc`: the point's angle about the arc center is
taken, then `start`, `end` and the angle are pushed up by `2π` while negative
(values at or above `2π` are left unchanged), and membership is tested with
the wrap-around disjunction when `start > end`. -/
noncomputable def isPointOnArc (point : Pt) (center : Pt) (start end_ : ℝ) : Bool :=
  let angle := Utils.atan2 (point.y - center.y) (point.x - center.x)
  -- closed form of `while (v < 0) v += 2π`: add 2π exactly ⌈-v/2π⌉ times
  let bump : ℝ → ℝ := fun v => if v < 0 then v + 2 * π * ⌈-v / (2 * π)⌉ else v
  let s := bump start
  let e := bump end_
  let a := bump angle
  if s ≤ e then decide (s ≤ a ∧ a ≤ e)
  else decide (s ≤ a ∨ a ≤ e)

/-- Embeds `Geometry.segmentIntersection`: dispatch on the segment-kind pair;
circle-arc, arc-arc and anything involving an ellipse fall through to `[]`. -/
noncomputable def segmentIntersection (s1 s2 : Segment) : List Pt :=
  match s1, s2 with
  | .line p1 p2, .line p3 p4 => (segmentSegmentIntersection p1 p2 p3 p4).toList
  | .line p1 p2, .circle c r => lineCircleIntersection p1 p2 c r
  | .circle c r, .line p1 p2 => lineCircleIntersection p1 p2 c r
  | .circle c1 r1, .circle c2 r2 => circleCircleIntersection c1 r1 c2 r2
  | .line p1 p2, .arc c r s e => (lineCircleIntersection p1 p2 c r).filter (isPointOnArc · c s e)
  | .arc c r s e, .line p1 p2 => (lineCircleIntersection p1 p2 c r).filter (isPointOnArc · c s e)
  | _, _ => []

/-- Embeds `Geometry.findIntersections`: the cartesian product of the two
segment lists, deduplicated by point proximity. -/
noncomputable def findIntersections (entity1 entity2 : Entity) : List Pt :=
  Utils.uniquePoints
    ((getEntitySegments entity1).flatMap fun s1 =>
      (getEntitySegments entity2).flatMap fun s2 => segmentIntersection s1 s2)

end Geometry

/-- The remainder operator of JavaScript (`x % y`): the remainder of truncated
division, carrying the sign of the dividend. -/
noncomputable def jsMod (x y : ℝ) : ℝ :=
  x - y * (if 0 ≤ x / y then (⌊x / y⌋ : ℝ) else (⌈x / y⌉ : ℝ))

namespace Geometry

/-- Embeds `Geometry._angleInArc`: all three angles are normalized to
`[0, 2π)` by `((v % 2π) + 2π) % 2π`, then membership is tested with the
wrap-around disjunction when `start > end`. -/
noncomputable def angleInArc (angle start end_ : ℝ) : Bool :=
  let PI2 := 2 * π
  let a := jsMod (jsMod angle PI2 + PI2) PI2
  let s := jsMod (jsMod start PI2 + PI2) PI2
  let e := jsMod (jsMod end_ PI2 + PI2) PI2
  if s ≤ e then decide (s ≤ a ∧ a ≤ e)
  else decide (s ≤ a ∨ a ≤ e)

/-- Embeds `Geometry.isAngleOnArc`: same normalization and membership test as
`_angleInArc`, dispatched on an arc's `start`/`end` fields. -/
noncomputable def isAngleOnArc (angle start end_ : ℝ) : Bool :=
  let PI2 := 2 * π
  let s := jsMod (jsMod start PI2 + PI2) PI2
  let e := jsMod (jsMod end_ PI2 + PI2) PI2
  let a := jsMod (jsMod angle PI2 + PI2) PI2
  if s ≤ e then decide (s ≤ a ∧ a ≤ e)
  else decide (s ≤ a ∨ a ≤ e)

end Geometry

/-- The stable ascending sort underlying JavaScript's `Array.prototype.sort`
with a numeric-key comparator `(a, b) => key(a) - key(b)`. -/
noncomputable def jsSortBy {α : Type} (key : α → ℝ) (xs : List α) : List α :=
  xs.mergeSort fun a b => decide (key a ≤ key b)

/-- Index of the first strict minimum of a list of distances, as computed by
the source's `minDist = Infinity; if (d < minDist) ...` scan loops; `none`
models the untouched `-1` index on an empty scan. -/
noncomputable def argminFirst (xs : List ℝ) : Option ℕ :=
  (xs.foldl
    (fun (st : Option (ℕ × ℝ) × ℕ) d =>
      match st with
      | (none, i) => (some (i, d), i + 1)
      | (some (bi, bd), i) => (if d < bd then some (i, d) else some (bi, bd), i + 1))
    (none, 0)).1.map Prod.fst

namespace Geometry

/-- Embeds the cut-collection loop shared by `trimLine` and `trimCircle`:
intersections of the trimmed entity against every other entity, skipping the
entity itself by id. -/
noncomputable def collectCuts (entity : Entity) (allEntities : List Entity) : List Pt :=
  allEntities.foldl
    (fun cuts other =>
      if other.id = entity.id then cuts
      else cuts ++ findIntersections entity other) []

/-- Embeds `Geometry.trimLine` for a line entity (`p1`, `p2` are the line's
endpoint fields, `id` its identity): collect cuts, bail out with `none` on
zero intersections, append the endpoints, sort by distance from `p1`,
deduplicate, drop the sub-interval whose midpoint is nearest the click, and
emit the remaining non-degenerate sub-intervals as new line entities. -/
noncomputable def trimLine (id : ℕ) (p1 p2 : Pt) (clickPoint : Pt)
    (allEntities : List Entity) : Option (List Shape) :=
  let cuts0 := collectCuts ⟨id, .line p1 p2⟩ allEntities
  if cuts0 = [] then none
  else
    let cuts1 := cuts0 ++ [p1, p2]
    let cuts2 := jsSortBy (fun p => Utils.dist p1 p) cuts1
    let cuts := Utils.uniquePoints cuts2
    let pairs := cuts.zip cuts.tail
    let clickedIdx := argminFirst (pairs.map fun q => Utils.dist clickPoint (Utils.midpoint q.1 q.2))
    some (pairs.enum.filterMap fun iq =>
      if some iq.1 = clickedIdx then none
      else if Utils.dist iq.2.1 iq.2.2 < 0.001 then none
      else some (.line iq.2.1 iq.2.2))

/-- Embeds `Geometry.trimCircle` for a circle entity: collect cuts, bail out
with `none` on fewer than two intersections, convert the cuts to angles about
the center, sort by angle, find the wrap-aware angular interval containing
the click angle, and emit the remaining intervals as arcs. -/
noncomputable def trimCircle (id : ℕ) (center : Pt) (r : ℝ) (clickPoint : Pt)
    (allEntities : List Entity) : Option (List Shape) :=
  let cuts := collectCuts ⟨id, .circle center r⟩ allEntities
  if cuts.length < 2 then none
  else
    let angles := cuts.map fun p => Utils.atan2 (p.y - center.y) (p.x - center.x)
    let sorted := jsSortBy (fun a => a) angles
    let clickAngle := Utils.atan2 (clickPoint.y - center.y) (clickPoint.x - center.x)
    let n := sorted.length
    let clickedIdx := (List.range n).find? fun i =>
      let s := sorted.getD i 0
      let e := sorted.getD ((i + 1) % n) 0
      if s ≤ e then decide (s ≤ clickAngle ∧ clickAngle ≤ e)
      else decide (s ≤ clickAngle ∨ clickAngle ≤ e)
    match clickedIdx with
    | none => none
    | some ci =>
        some ((List.range n).filterMap fun i =>
          if i = ci then none
          else some (.arc center r (sorted.getD i 0) (sorted.getD ((i + 1) % n) 0)))

/-- Embeds `Geometry.closestPointOnLine`: projection onto the segment with
the parameter clamped to `[0, 1]` (degenerate segment returns its start). -/
noncomputable def closestPointOnLine (point lineP1 lineP2 : Pt) : Pt :=
  let dx := lineP2.x - lineP1.x
  let dy := lineP2.y - lineP1.y
  let lengthSq := dx * dx + dy * dy
  if lengthSq = 0 then lineP1
  else
    let t := max 0 (min 1 (((point.x - lineP1.x) * dx + (point.y - lineP1.y) * dy) / lengthSq))
    ⟨lineP1.x + t * dx, lineP1.y + t * dy⟩

end Geometry

/-- An arc entity description `{center, r, start, end}` as emitted by the
fillet solver. -/
structure ArcE where
  center : Pt
  r : ℝ
  start : ℝ
  end_ : ℝ

/-- The record returned by `filletLines`/`chamferLines`: the two trimmed
lines, an optional fillet arc, and an optional connecting chamfer line
(`none` models both JavaScript `null` and an absent field). -/
structure CornerResult where
  line1 : Pt × Pt
  line2 : Pt × Pt
  arc : Option ArcE
  chamferLine : Option (Pt × Pt)

namespace Geometry

/-- Embeds `Geometry.filletLines` on two lines given as endpoint pairs:
`none` when the infinite lines are parallel; `radius = 0` degenerates to the
pure corner trim; otherwise the tangent-arc construction. -/
noncomputable def filletLines (l1 l2 : Pt × Pt) (radius : ℝ) : Option CornerResult :=
  match lineLineIntersection l1.1 l1.2 l2.1 l2.2 with
  | none => none
  | some inter =>
    if radius = 0 then
      let d1p1 := Utils.dist l1.1 inter
      let d1p2 := Utils.dist l1.2 inter
      let d2p1 := Utils.dist l2.1 inter
      let d2p2 := Utils.dist l2.2 inter
      some { line1 := (if d1p1 > d1p2 then l1.1 else inter, if d1p1 > d1p2 then inter else l1.2),
             line2 := (if d2p1 > d2p2 then l2.1 else inter, if d2p1 > d2p2 then inter else l2.2),
             arc := none, chamferLine := none }
    else
      let angle1 := Utils.angle inter l1.1
      let angle2 := Utils.angle inter l2.1
      let bisector := if |angle1 - angle2| > π then (angle1 + angle2) / 2 + π
                      else (angle1 + angle2) / 2
      let sinHalfAngle := Real.sin (|angle2 - angle1| / 2)
      if sinHalfAngle = 0 then none
      else
        let centerDist := radius / sinHalfAngle
        let arcCenter : Pt := ⟨inter.x + centerDist * Real.cos bisector,
                               inter.y + centerDist * Real.sin bisector⟩
        let tangent1 := closestPointOnLine arcCenter l1.1 l1.2
        let tangent2 := closestPointOnLine arcCenter l2.1 l2.2
        let startAngle := Utils.angle arcCenter tangent1
        let endAngle := Utils.angle arcCenter tangent2
        let d1p1 := Utils.dist l1.1 tangent1
        let d1p2 := Utils.dist l1.2 tangent1
        let d2p1 := Utils.dist l2.1 tangent2
        let d2p2 := Utils.dist l2.2 tangent2
        some { line1 := (if d1p1 > d1p2 then l1.1 else tangent1,
                         if d1p1 > d1p2 then tangent1 else l1.2),
               line2 := (if d2p1 > d2p2 then l2.1 else tangent2,
                         if d2p1 > d2p2 then tangent2 else l2.2),
               arc := some ⟨arcCenter, radius, startAngle, endAngle⟩,
               chamferLine := none }

/-- Embeds `Geometry.chamferLines`: `none` when the infinite lines are
parallel; both distances zero degenerates to `filletLines(..., 0)`; otherwise
walks each chamfer distance from the intersection along the kept direction
and emits the trimmed lines plus the connecting chamfer line. -/
noncomputable def chamferLines (l1 l2 : Pt × Pt) (dist1 dist2 : ℝ) : Option CornerResult :=
  match lineLineIntersection l1.1 l1.2 l2.1 l2.2 with
  | none => none
  | some inter =>
    if dist1 = 0 ∧ dist2 = 0 then filletLines l1 l2 0
    else
      let d1p1 := Utils.dist l1.1 inter
      let d1p2 := Utils.dist l1.2 inter
      let d2p1 := Utils.dist l2.1 inter
      let d2p2 := Utils.dist l2.2 inter
      let dir1 : Pt := if d1p1 > d1p2 then ⟨l1.1.x - inter.x, l1.1.y - inter.y⟩
                       else ⟨l1.2.x - inter.x, l1.2.y - inter.y⟩
      let dir2 : Pt := if d2p1 > d2p2 then ⟨l2.1.x - inter.x, l2.1.y - inter.y⟩
                       else ⟨l2.2.x - inter.x, l2.2.y - inter.y⟩
      let len1 := Real.sqrt (dir1.x * dir1.x + dir1.y * dir1.y)
      let len2 := Real.sqrt (dir2.x * dir2.x + dir2.y * dir2.y)
      let chamferP1 : Pt := ⟨inter.x + dir1.x / len1 * dist1, inter.y + dir1.y / len1 * dist1⟩
      let chamferP2 : Pt := ⟨inter.x + dir2.x / len2 * dist2, inter.y + dir2.y / len2 * dist2⟩
      some { line1 := (if d1p1 > d1p2 then l1.1 else chamferP1,
                       if d1p1 > d1p2 then chamferP1 else l1.2),
             line2 := (if d2p1 > d2p2 then l2.1 else chamferP2,
                       if d2p1 > d2p2 then chamferP2 else l2.2),
             arc := none,
             chamferLine := some (chamferP1, chamferP2) }

/-- Embeds `Geometry.getEndpoints` for the embedded entity kinds (block
references, which expand through the external document state, are outside the
embedding; they and all remaining kinds share the `[]` default). -/
noncomputable def getEndpoints (entity : Entity) : List Pt :=
  match entity.shape with
  | .line p1 p2 => [p1, p2]
  | .polyline points => points
  | .rect p1 p2 => [p1, ⟨p2.x, p1.y⟩, p2, ⟨p1.x, p2.y⟩]
  | .arc center r s e => [Utils.polarPoint center s r, Utils.polarPoint center e r]
  | _ => []

/-- Embeds `Geometry.getMidpoints` for the embedded entity kinds. -/
noncomputable def getMidpoints (entity : Entity) : List Pt :=
  match entity.shape with
  | .line p1 p2 => [Utils.midpoint p1 p2]
  | .polyline points => (points.zip points.tail).map fun q => Utils.midpoint q.1 q.2
  | .rect p1 p2 =>
      [Utils.midpoint p1 ⟨p2.x, p1.y⟩, Utils.midpoint ⟨p2.x, p1.y⟩ p2,
       Utils.midpoint p2 ⟨p1.x, p2.y⟩, Utils.midpoint ⟨p1.x, p2.y⟩ p1]
  | _ => []

/-- Embeds `Geometry.getCenters` for the embedded entity kinds. -/
noncomputable def getCenters (entity : Entity) : List Pt :=
  match entity.shape with
  | .circle center _ => [center]
  | .arc center _ _ _ => [center]
  | .ellipse center _ _ _ => [center]
  | .rect p1 p2 => [Utils.midpoint p1 p2]
  | _ => []

/-- Embeds `Geometry.getQuadrantPoints`: the four axis-aligned points of a
circle, the arc-range-filtered ones of an arc, and the rotated ones of an
ellipse. -/
noncomputable def getQuadrantPoints (entity : Entity) : List Pt :=
  let quadrantAngles : List ℝ := [0, π / 2, π, 3 * π / 2]
  match entity.shape with
  | .circle center r =>
      [⟨center.x + r, center.y⟩, ⟨center.x, center.y + r⟩,
       ⟨center.x - r, center.y⟩, ⟨center.x, center.y - r⟩]
  | .arc center r s e =>
      (quadrantAngles.filter fun a => isAngleOnArc a s e).map fun a =>
        Utils.polarPoint center a r
  | .ellipse center rx ry rotation =>
      let cosR := Real.cos rotation
      let sinR := Real.sin rotation
      ([⟨rx, 0⟩, ⟨0, ry⟩, ⟨-rx, 0⟩, ⟨0, -ry⟩] : List Pt).map fun p =>
        ⟨center.x + p.x * cosR - p.y * sinR, center.y + p.x * sinR + p.y * cosR⟩
  | _ => []

/-- The `minDist = Infinity` scan over candidate points shared by the
`polyline` and `rect` branches of `getNearestPoint`: first strict minimum by
distance to the reference point, `none` when no candidate exists. -/
noncomputable def nearestOf (point : Pt) (candidates : List Pt) : Option Pt :=
  (candidates.foldl
    (fun (best : Option (Pt × ℝ)) p =>
      let d := Utils.dist point p
      match best with
      | none => some (p, d)
      | some (bp, bd) => if d < bd then some (p, d) else some (bp, bd))
    none).map Prod.fst

/-- Embeds `Geometry.getNearestPoint`: the closest point on the entity
boundary (per kind), `null` for kinds without one. -/
noncomputable def getNearestPoint (point : Pt) (entity : Entity) : Option Pt :=
  match entity.shape with
  | .line p1 p2 => some (Utils.closestPointOnSegment point p1 p2)
  | .circle center r =>
      let angle := Utils.atan2 (point.y - center.y) (point.x - center.x)
      some (Utils.polarPoint center angle r)
  | .polyline points =>
      nearestOf point
        ((points.zip points.tail).map fun q => Utils.closestPointOnSegment point q.1 q.2)
  | .arc center r s e =>
      let arcAngle := Utils.atan2 (point.y - center.y) (point.x - center.x)
      if isAngleOnArc arcAngle s e then some (Utils.polarPoint center arcAngle r)
      else
        let ep1 := Utils.polarPoint center s r
        let ep2 := Utils.polarPoint center e r
        some (if Utils.dist point ep1 < Utils.dist point ep2 then ep1 else ep2)
  | .rect p1 p2 =>
      let corners : List Pt := [p1, ⟨p2.x, p1.y⟩, p2, ⟨p1.x, p2.y⟩]
      nearestOf point
        (((corners.zip corners.tail).map fun q => Utils.closestPointOnSegment point q.1 q.2)
          ++ [Utils.closestPointOnSegment point ⟨p1.x, p2.y⟩ p1])
  | .ellipse center rx ry _ =>
      let ea := Utils.atan2 (point.y - center.y) (point.x - center.x)
      some ⟨center.x + rx * Real.cos ea, center.y + ry * Real.sin ea⟩
  | _ => none

/-- Embeds `Geometry.perpendicularToLine`: the foot of the perpendicular from
a point onto a segment, `null` for a zero-length segment or a foot outside
the segment. -/
noncomputable def perpendicularToLine (point lineP1 lineP2 : Pt) : Option Pt :=
  let dx := lineP2.x - lineP1.x
  let dy := lineP2.y - lineP1.y
  let lenSq := dx * dx + dy * dy
  if lenSq = 0 then none
  else
    let t := ((point.x - lineP1.x) * dx + (point.y - lineP1.y) * dy) / lenSq
    if t < 0 ∨ 1 < t then none
    else some ⟨lineP1.x + t * dx, lineP1.y + t * dy⟩

/-- The `minDist = Infinity` scan over optional perpendicular feet shared by
the `polyline` and `rect` branches of `getPerpendicularPoint`. -/
noncomputable def nearestPerpOf (fromPoint : Pt) (candidates : List (Option Pt)) : Option Pt :=
  (candidates.foldl
    (fun (best : Option (Pt × ℝ)) c =>
      match c with
      | none => best
      | some pp =>
          let d := Utils.dist fromPoint pp
          match best with
          | none => some (pp, d)
          | some (bp, bd) => if d < bd then some (pp, d) else some (bp, bd))
    none).map Prod.fst

/-- Embeds `Geometry.getPerpendicularPoint`: the foot of the perpendicular
from the "from point" onto the entity. -/
noncomputable def getPerpendicularPoint (fromPoint : Pt) (entity : Entity) : Option Pt :=
  match entity.shape with
  | .line p1 p2 => perpendicularToLine fromPoint p1 p2
  | .polyline points =>
      nearestPerpOf fromPoint
        ((points.zip points.tail).map fun q => perpendicularToLine fromPoint q.1 q.2)
  | .circle center r =>
      let angle := Utils.atan2 (fromPoint.y - center.y) (fromPoint.x - center.x)
      some (Utils.polarPoint center angle r)
  | .arc center r s e =>
      let arcAngle := Utils.atan2 (fromPoint.y - center.y) (fromPoint.x - center.x)
      if isAngleOnArc arcAngle s e then some (Utils.polarPoint center arcAngle r) else none
  | .rect p1 p2 =>
      let corners : List Pt := [p1, ⟨p2.x, p1.y⟩, p2, ⟨p1.x, p2.y⟩]
      nearestPerpOf fromPoint
        (((corners.zip corners.tail).map fun q => perpendicularToLine fromPoint q.1 q.2)
          ++ [perpendicularToLine fromPoint ⟨p1.x, p2.y⟩ p1])
  | _ => none

/-- Embeds `Geometry.getTangentPoint`: the tangent point from an external
point to a circle or arc, via the half-angle `acos(r / d)`; arcs keep only
tangent points on their angular range; ties of two valid points go to the one
closer to the from point. -/
noncomputable def getTangentPoint (fromPoint : Pt) (entity : Entity) : Option Pt :=
  match entity.shape with
  | .circle center r =>
      let dx := fromPoint.x - center.x
      let dy := fromPoint.y - center.y
      let distSq := dx * dx + dy * dy
      if distSq ≤ r * r then none
      else
        let d := Real.sqrt distSq
        let angleToFrom := Utils.atan2 dy dx
        let halfAngle := Real.arccos (r / d)
        let tp1 := Utils.polarPoint center (angleToFrom + halfAngle) r
        let tp2 := Utils.polarPoint center (angleToFrom - halfAngle) r
        some (if Utils.dist fromPoint tp1 < Utils.dist fromPoint tp2 then tp1 else tp2)
  | .arc center r s e =>
      let dx := fromPoint.x - center.x
      let dy := fromPoint.y - center.y
      let distSq := dx * dx + dy * dy
      if distSq ≤ r * r then none
      else
        let d := Real.sqrt distSq
        let angleToFrom := Utils.atan2 dy dx
        let halfAngle := Real.arccos (r / d)
        let tp1 := Utils.polarPoint center (angleToFrom + halfAngle) r
        let tp2 := Utils.polarPoint center (angleToFrom - halfAngle) r
        let onArc1 := isAngleOnArc (Utils.atan2 (tp1.y - center.y) (tp1.x - center.x)) s e
        let onArc2 := isAngleOnArc (Utils.atan2 (tp2.y - center.y) (tp2.x - center.x)) s e
        if onArc1 ∧ onArc2 then
          some (if Utils.dist fromPoint tp1 < Utils.dist fromPoint tp2 then tp1 else tp2)
        else if onArc1 then some tp1
        else if onArc2 then some tp2
        else none
  | _ => none

/-- Embeds `Geometry._getExtensionPoint`: the projection of the cursor onto a
line's infinite extension (only beyond its endpoints, within tolerance), or
the radial point on an arc's circle outside the arc's angular range. -/
noncomputable def getExtensionPoint (point : Pt) (entity : Entity) (tolerance : ℝ) : Option Pt :=
  match entity.shape with
  | .line p1 p2 =>
      let dx := p2.x - p1.x
      let dy := p2.y - p1.y
      let len := Real.sqrt (dx * dx + dy * dy)
      if len < 1e-10 then none
      else
        let t := ((point.x - p1.x) * dx + (point.y - p1.y) * dy) / (len * len)
        if 0 ≤ t ∧ t ≤ 1 then none
        else
          let proj : Pt := ⟨p1.x + t * dx, p1.y + t * dy⟩
          if Utils.dist point proj < tolerance then some proj else none
  | .arc center r s e =>
      let d := Utils.dist point center
      if |d - r| > tolerance then none
      else
        let angle := Utils.atan2 (point.y - center.y) (point.x - center.x)
        if angleInArc angle s e then none
        else some ⟨center.x + r * Real.cos angle, center.y + r * Real.sin angle⟩
  | _ => none

/-- Embeds `Geometry._paramOnSegment`. -/
noncomputable def paramOnSegment (point p1 p2 : Pt) : ℝ :=
  let dx := p2.x - p1.x
  let dy := p2.y - p1.y
  let len2 := dx * dx + dy * dy
  if len2 < 1e-10 then 0
  else ((point.x - p1.x) * dx + (point.y - p1.y) * dy) / len2

/-- Embeds `Geometry._findApparentIntersections`: the infinite-line
intersection of two line entities, kept only when it lies outside the finite
parameter range of at least one of them. -/
noncomputable def findApparentIntersections (ent1 ent2 : Entity) : List Pt :=
  match ent1.shape, ent2.shape with
  | .line a1 a2, .line b1 b2 =>
      match lineLineIntersection a1 a2 b1 b2 with
      | none => []
      | some ip =>
          let t1 := paramOnSegment ip a1 a2
          let t2 := paramOnSegment ip b1 b2
          if t1 < 0 ∨ 1 < t1 ∨ t2 < 0 ∨ 1 < t2 then [ip] else []
  | _, _ => []

end Geometry

/-- The set of enabled snap modes passed to `findSnapPoints`. -/
structure SnapModes where
  grid : Bool := false
  endpoint : Bool := false
  midpoint : Bool := false
  center : Bool := false
  nearest : Bool := false
  perpendicular : Bool := false
  tangent : Bool := false
  quadrant : Bool := false
  node : Bool := false
  extension : Bool := false
  intersection : Bool := false
  appint : Bool := false

/-- The snap-candidate kinds produced by the resolver. -/
inductive SnapKind where
  | intersection | endpoint | midpoint | center | quadrant | node
  | perpendicular | tangent | extension | appint | nearest | grid
deriving DecidableEq

/-- A snap candidate `{point, type, distance}`. -/
structure Snap where
  point : Pt
  type : SnapKind
  distance : ℝ

/-- The priority map of `findSnapPoints` (lower wins). -/
def snapPriority : SnapKind → ℕ
  | .intersection => 0
  | .endpoint => 1
  | .midpoint => 2
  | .center => 3
  | .quadrant => 4
  | .node => 5
  | .perpendicular => 6
  | .tangent => 7
  | .extension => 8
  | .appint => 9
  | .nearest => 10
  | .grid => 11

/-- The ordered `(i, j)` pairs with `i < j` visited by the source's nested
intersection loops. -/
def orderedPairs {α : Type} : List α → List (α × α)
  | [] => []
  | x :: xs => (xs.map fun y => (x, y)) ++ orderedPairs xs

namespace Geometry

/-- Embeds the candidate-generation phase of `Geometry.findSnapPoints`, in
source order: the unconditional grid candidate, then per entity the
endpoint/midpoint/center/nearest/perpendicular/tangent/quadrant/node/extension
generators (each gated by its mode and tolerance), then the pairwise
intersection and apparent-intersection candidates.  `cadPoints` stands for
the ambient `CAD.points` list that supplies the fallback "from point". -/
noncomputable def snapCandidates (point : Pt) (entities : List Entity) (snapModes : SnapModes)
    (tolerance gridSize : ℝ) (fromPoint : Option Pt) (cadPoints : List Pt) : List Snap :=
  let snapFromPoint := fromPoint.orElse fun _ => cadPoints.getLast?
  let gridSnaps : List Snap :=
    if snapModes.grid then
      let gridPoint := Utils.snapPointToGrid point gridSize
      [⟨gridPoint, .grid, Utils.dist point gridPoint⟩]
    else []
  let entitySnaps : List Snap := entities.flatMap fun entity =>
    (if snapModes.endpoint then
      (getEndpoints entity).filterMap fun ep =>
        let d := Utils.dist point ep
        if d < tolerance then some ⟨ep, .endpoint, d⟩ else none
     else [])
    ++
    (if snapModes.midpoint then
      (getMidpoints entity).filterMap fun mp =>
        let d := Utils.dist point mp
        if d < tolerance then some ⟨mp, .midpoint, d⟩ else none
     else [])
    ++
    (if snapModes.center then
      (getCenters entity).filterMap fun cp =>
        let d := Utils.dist point cp
        if d < tolerance then some ⟨cp, .center, d⟩ else none
     else [])
    ++
    (if snapModes.nearest then
      match getNearestPoint point entity with
      | some nearest =>
          let d := Utils.dist point nearest
          if d < tolerance then [⟨nearest, .nearest, d⟩] else []
      | none => []
     else [])
    ++
    (if snapModes.perpendicular then
      match snapFromPoint with
      | some fp =>
          (match getNearestPoint point entity with
           | some nearestPt =>
               if Utils.dist point nearestPt < tolerance then
                 match getPerpendicularPoint fp entity with
                 | some perpPoint =>
                     let d := Utils.dist point perpPoint
                     if d < tolerance * 2 then [⟨perpPoint, .perpendicular, d⟩] else []
                 | none => []
               else []
           | none => [])
      | none => []
     else [])
    ++
    (if snapModes.tangent then
      match snapFromPoint with
      | some fp =>
          (match getNearestPoint point entity with
           | some nearestPt =>
               if Utils.dist point nearestPt < tolerance then
                 match getTangentPoint fp entity with
                 | some tangentPt =>
                     let d := Utils.dist point tangentPt
                     if d < tolerance * 2 then [⟨tangentPt, .tangent, d⟩] else []
                 | none => []
               else []
           | none => [])
      | none => []
     else [])
    ++
    (if snapModes.quadrant then
      (getQuadrantPoints entity).filterMap fun qp =>
        let d := Utils.dist point qp
        if d < tolerance then some ⟨qp, .quadrant, d⟩ else none
     else [])
    ++
    (if snapModes.node then
      match entity.shape with
      | .point position =>
          let d := Utils.dist point position
          if d < tolerance then [⟨position, .node, d⟩] else []
      | _ => []
     else [])
    ++
    (if snapModes.extension then
      match getExtensionPoint point entity tolerance with
      | some extPt => [⟨extPt, .extension, Utils.dist point extPt⟩]
      | none => []
     else [])
  let intersectionSnaps : List Snap :=
    if snapModes.intersection then
      (orderedPairs entities).flatMap fun q =>
        (findIntersections q.1 q.2).filterMap fun ip =>
          let d := Utils.dist point ip
          if d < tolerance then some ⟨ip, .intersection, d⟩ else none
    else []
  let appintSnaps : List Snap :=
    if snapModes.appint then
      (orderedPairs entities).flatMap fun q =>
        (findApparentIntersections q.1 q.2).filterMap fun ip =>
          let d := Utils.dist point ip
          if d < tolerance then some ⟨ip, .appint, d⟩ else none
    else []
  gridSnaps ++ entitySnaps ++ intersectionSnaps ++ appintSnaps

/-- The comparator of `findSnapPoints` as a stable-sort `le` relation:
priority first, then distance. -/
noncomputable def snapLe (a b : Snap) : Bool :=
  decide (snapPriority a.type < snapPriority b.type ∨
    (snapPriority a.type = snapPriority b.type ∧ a.distance ≤ b.distance))

/-- Embeds `Geometry.findSnapPoints`: generate all candidates, stable-sort by
priority then distance, and return the best candidate (or `null` when there
is none). -/
noncomputable def findSnapPoints (point : Pt) (entities : List Entity) (snapModes : SnapModes)
    (tolerance gridSize : ℝ) (fromPoint : Option Pt) (cadPoints : List Pt) : Option Snap :=
  ((snapCandidates point entities snapModes tolerance gridSize fromPoint cadPoints).mergeSort
    snapLe).head?

end Geometry

/-! The QuadTree spatial index.  Its arithmetic is only addition, halving and
comparison, so it is embedded over the rationals and stays fully executable.
Entities enter the tree through their axis-aligned bounding boxes; each
carries an id standing for JavaScript object identity. -/

/-- An axis-aligned bounding box `{minX, minY, maxX, maxY}`. -/
structure BBox where
  minX : ℚ
  minY : ℚ
  maxX : ℚ
  maxY : ℚ
deriving DecidableEq

/-- The `Rectangle {x, y, width, height}` class of the spatial index. -/
structure Rectangle where
  x : ℚ
  y : ℚ
  width : ℚ
  height : ℚ
deriving DecidableEq

/-- An entity as seen by the QuadTree: an identity plus a bounding box. -/
structure QEnt where
  id : ℕ
  box : BBox
deriving DecidableEq

/-- Embeds `Rectangle.contains`. -/
def Rectangle.containsPt (self : Rectangle) (p : ℚ × ℚ) : Bool :=
  decide (self.x ≤ p.1 ∧ p.1 ≤ self.x + self.width ∧ self.y ≤ p.2 ∧ p.2 ≤ self.y + self.height)

/-- Embeds `Rectangle.intersects`. -/
def Rectangle.intersects (self range : Rectangle) : Bool :=
  !(decide (self.x + self.width < range.x) || decide (range.x + range.width < self.x) ||
    decide (self.y + self.height < range.y) || decide (range.y + range.height < self.y))

/-- Embeds `QuadTree._bboxIntersects`. -/
def bboxIntersects (bbox : BBox) (rect : Rectangle) : Bool :=
  !(decide (rect.x + rect.width < bbox.minX) || decide (bbox.maxX < rect.x) ||
    decide (rect.y + rect.height < bbox.minY) || decide (bbox.maxY < rect.y))

/-- The QuadTree node: a leaf of up to `capacity` entities, or a divided node
with four children (JavaScript's nullable child fields plus the `divided`
flag).  Divided nodes keep their (emptied) entity list, which `retrieve`
still scans. -/
inductive QT where
  | leaf (boundary : Rectangle) (capacity : ℕ) (entities : List QEnt)
  | node (boundary : Rectangle) (capacity : ℕ) (entities : List QEnt) (nw ne sw se : QT)

/-- The boundary rectangle of a node. -/
def QT.boundary : QT → Rectangle
  | .leaf b _ _ => b
  | .node b _ _ _ _ _ _ => b

/-- The entity list stored directly at a node. -/
def QT.entities : QT → List QEnt
  | .leaf _ _ es => es
  | .node _ _ es _ _ _ _ => es

/-- Embeds `QuadTree.subdivide`: the four equal quadrant children, with the
parent's entities about to be redistributed (`this.entities = []`). -/
def QT.subdivided (b : Rectangle) (capacity : ℕ) : QT :=
  let halfW := b.width / 2
  let halfH := b.height / 2
  .node b capacity []
    (.leaf ⟨b.x, b.y, halfW, halfH⟩ capacity [])
    (.leaf ⟨b.x + halfW, b.y, halfW, halfH⟩ capacity [])
    (.leaf ⟨b.x, b.y + halfH, halfW, halfH⟩ capacity [])
    (.leaf ⟨b.x + halfW, b.y + halfH, halfW, halfH⟩ capacity [])

/-- Embeds `QuadTree._insertIntoChildren`, parametrised by the child-insert
call (`insert` one stack level deeper): try each of the four children in
order, descending into every child whose boundary intersects the entity's
box.  On a leaf (never reached from the source paths) it is the identity. -/
def qinsertChildrenStep (ins : QT → QEnt → Option QT) : QT → QEnt → Option QT
  | .node b c ents nw ne sw se, e =>
      match (if bboxIntersects e.box nw.boundary then ins nw e else some nw) with
      | none => none
      | some nw' =>
        match (if bboxIntersects e.box ne.boundary then ins ne e else some ne) with
        | none => none
        | some ne' =>
          match (if bboxIntersects e.box sw.boundary then ins sw e else some sw) with
          | none => none
          | some sw' =>
            match (if bboxIntersects e.box se.boundary then ins se e else some se) with
            | none => none
            | some se' => some (.node b c ents nw' ne' sw' se')
  | t, _ => some t

/-- The redistribution loop of `QuadTree.insert` after a subdivision: each
formerly stored entity is pushed into the children in order. -/
def qreinsertGo (ins : QT → QEnt → Option QT) : QT → List QEnt → Option QT
  | t, [] => some t
  | t, x :: rest =>
      match qinsertChildrenStep ins t x with
      | none => none
      | some t1 => qreinsertGo ins t1 rest

/-- Embeds `QuadTree.insert`.  `fuel` bounds the recursion depth (the
JavaScript call stack); `none` models the stack overflow that unbounded
subdivision would produce.  An entity whose box misses the node boundary is
dropped (the source returns `false` and stores nothing). -/
def qinsert : ℕ → QT → QEnt → Option QT
  | 0 => fun _ _ => none
  | fuel + 1 => fun t e =>
    if bboxIntersects e.box t.boundary = false then some t
    else
      match t with
      | .leaf b c ents =>
          if ents.length < c then some (.leaf b c (ents ++ [e]))
          else
            match qreinsertGo (qinsert fuel) (QT.subdivided b c) ents with
            | none => none
            | some t1 => qinsertChildrenStep (qinsert fuel) t1 e
      | .node _ _ _ _ _ _ _ => qinsertChildrenStep (qinsert fuel) t e

/-- Sequential insertion of a list of entities, threading the possibility of
fuel exhaustion. -/
def qinsertAll (fuel : ℕ) (t : QT) (es : List QEnt) : Option QT :=
  es.foldl (fun acc e => acc.bind fun tt => qinsert fuel tt e) (some t)

/-- The body of the entity-scanning loop of `QuadTree.retrieve`: push an
intersecting entity into `out` unless the `seen` set already has it. -/
def qscanStep (range : Rectangle) (st : List QEnt × Option (List QEnt)) (e : QEnt) :
    List QEnt × Option (List QEnt) :=
  if bboxIntersects e.box range then
    match st.2 with
    | none => (st.1 ++ [e], none)
    | some seen => if e ∈ seen then st else (st.1 ++ [e], some (seen ++ [e]))
  else st

/-- Embeds `QuadTree.retrieve(range, out, seen)`: prune when the node
boundary misses the range, scan the node's own entities via `qscanStep`,
then recurse into the four children.  The accumulator pair is the mutable
`out` array and the optional `seen` set. -/
def qretrieve (t : QT) (range : Rectangle) (acc : List QEnt × Option (List QEnt)) :
    List QEnt × Option (List QEnt) :=
  if t.boundary.intersects range = false then acc
  else
    let scanned := t.entities.foldl (qscanStep range) acc
    match t with
    | .leaf _ _ _ => scanned
    | .node _ _ _ nw ne sw se =>
        qretrieve se range (qretrieve sw range (qretrieve ne range (qretrieve nw range scanned)))

/-- The brute-force scan the spec compares `retrieve` against: every entity
whose bounding box intersects the range. -/
def bruteForceRetrieve (es : List QEnt) (range : Rectangle) : List QEnt :=
  es.filter fun e => bboxIntersects e.box range

/-! Specification-side definitions and proof-support predicates. -/

/-- Following the spec's words, for comparison with the source's
arc-membership tests: normalize all three values to `[0, 2π)`, then test
`angle ∈ [start, end]` directly, or via the wrap-around disjunction when
`start > end`. -/
noncomputable def specArcMembership (angle start end_ : ℝ) : Bool :=
  let norm : ℝ → ℝ := fun v => v - 2 * π * ⌊v / (2 * π)⌋
  let a := norm angle
  let s := norm start
  let e := norm end_
  if s ≤ e then decide (s ≤ a ∧ a ≤ e)
  else decide (s ≤ a ∨ a ≤ e)

/-- A well-formed bounding box: minima below maxima (as every
`getBoundingBox` of the source produces). -/
def QEnt.wf (e : QEnt) : Prop :=
  e.box.minX ≤ e.box.maxX ∧ e.box.minY ≤ e.box.maxY

/-- Membership of a point in the closed region of a `Rectangle`. -/
def ptInRect (p : ℚ × ℚ) (r : Rectangle) : Prop :=
  r.x ≤ p.1 ∧ p.1 ≤ r.x + r.width ∧ r.y ≤ p.2 ∧ p.2 ≤ r.y + r.height

/-- Membership of a point in the closed region of a bounding box. -/
def ptInBox (p : ℚ × ℚ) (b : BBox) : Prop :=
  b.minX ≤ p.1 ∧ p.1 ≤ b.maxX ∧ b.minY ≤ p.2 ∧ p.2 ≤ b.maxY

/-- Containment of a bounding box in the closed region of a `Rectangle`. -/
def BBox.insideRect (b : BBox) (r : Rectangle) : Prop :=
  r.x ≤ b.minX ∧ b.maxX ≤ r.x + r.width ∧ r.y ≤ b.minY ∧ b.maxY ≤ r.y + r.height

/-- An entity is stored somewhere in the subtree. -/
def QT.stored (e : QEnt) : QT → Prop
  | .leaf _ _ es => e ∈ es
  | .node _ _ es nw ne sw se =>
      e ∈ es ∨ QT.stored e nw ∨ QT.stored e ne ∨ QT.stored e sw ∨ QT.stored e se

/-- The structural invariant of trees built by `qinsert`: nonnegative
dimensions everywhere; leaf entities are well-formed and meet the leaf
boundary; divided nodes hold no entities of their own, have the four exact
quadrant boundaries, and reference every stored entity from every child
whose boundary meets the entity's box. -/
def QT.Inv : QT → Prop
  | .leaf b _ es =>
      0 ≤ b.width ∧ 0 ≤ b.height ∧ ∀ e ∈ es, e.wf ∧ bboxIntersects e.box b = true
  | .node b _ es nw ne sw se =>
      0 ≤ b.width ∧ 0 ≤ b.height ∧ es = [] ∧
      nw.boundary = ⟨b.x, b.y, b.width / 2, b.height / 2⟩ ∧
      ne.boundary = ⟨b.x + b.width / 2, b.y, b.width / 2, b.height / 2⟩ ∧
      sw.boundary = ⟨b.x, b.y + b.height / 2, b.width / 2, b.height / 2⟩ ∧
      se.boundary = ⟨b.x + b.width / 2, b.y + b.height / 2, b.width / 2, b.height / 2⟩ ∧
      QT.Inv nw ∧ QT.Inv ne ∧ QT.Inv sw ∧ QT.Inv se ∧
      (∀ e, (QT.stored e nw ∨ QT.stored e ne ∨ QT.stored e sw ∨ QT.stored e se) → e.wf) ∧
      (∀ e, (QT.stored e nw ∨ QT.stored e ne ∨ QT.stored e sw ∨ QT.stored e se) →
        (bboxIntersects e.box nw.boundary = true → QT.stored e nw) ∧
        (bboxIntersects e.box ne.boundary = true → QT.stored e ne) ∧
        (bboxIntersects e.box sw.boundary = true → QT.stored e sw) ∧
        (bboxIntersects e.box se.boundary = true → QT.stored e se))

/-! ## Theorems -/

/-- Evaluation helper: the square root of a number exhibited as a square. -/
theorem sqrt_of_sq {a b : ℝ} (hb : 0 ≤ b) (h : b ^ 2 = a) : Real.sqrt a = b := by
  rw [← h, Real.sqrt_sq hb]

/-- C7: with both chamfer distances zero, `chamferLines` returns exactly the
result of `filletLines` with radius zero, agreeing on the `None` case. -/
theorem chamferLines_zero_eq_filletLines_zero (l1 l2 : Pt × Pt) :
    Geometry.chamferLines l1 l2 0 0 = Geometry.filletLines l1 l2 0 := by
  unfold Geometry.chamferLines
  cases h : Geometry.lineLineIntersection l1.1 l1.2 l2.1 l2.2 with
  | none => unfold Geometry.filletLines; rw [h]
  | some inter => simp

/-- C4 (counterexample): on an ellipse entity, `getEntitySegments` does not
return the empty list the claim asserts — it returns one ellipse-tagged
segment. -/
theorem getEntitySegments_ellipse_not_empty :
    Geometry.getEntitySegments ⟨1, .ellipse ⟨0, 0⟩ 2 1 0⟩ ≠ [] := by
  simp [Geometry.getEntitySegments]

/-- C4 (amended): `getEntitySegments` decomposes a line into 1 line segment,
a rect into 4 line segments, a polyline with N points into N−1 line segments,
a circle into 1 circle segment, an arc into 1 arc segment, an ellipse into 1
ellipse-tagged segment (consumed by no intersection routine), and returns the
empty list for every other entity kind. -/
theorem getEntitySegments_spec :
    (∀ id p1 p2, Geometry.getEntitySegments ⟨id, .line p1 p2⟩ = [.line p1 p2]) ∧
    (∀ id p1 p2, Geometry.getEntitySegments ⟨id, .rect p1 p2⟩ =
      [.line ⟨p1.x, p1.y⟩ ⟨p2.x, p1.y⟩, .line ⟨p2.x, p1.y⟩ ⟨p2.x, p2.y⟩,
       .line ⟨p2.x, p2.y⟩ ⟨p1.x, p2.y⟩, .line ⟨p1.x, p2.y⟩ ⟨p1.x, p1.y⟩]) ∧
    (∀ id pts, (Geometry.getEntitySegments ⟨id, .polyline pts⟩).length = pts.length - 1) ∧
    (∀ id c r, Geometry.getEntitySegments ⟨id, .circle c r⟩ = [.circle c r]) ∧
    (∀ id c r s e, Geometry.getEntitySegments ⟨id, .arc c r s e⟩ = [.arc c r s e]) ∧
    (∀ id c rx ry rot, Geometry.getEntitySegments ⟨id, .ellipse c rx ry rot⟩ =
      [.ellipse c rx ry rot]) ∧
    (∀ id p, Geometry.getEntitySegments ⟨id, .point p⟩ = []) ∧
    (∀ id, Geometry.getEntitySegments ⟨id, .other⟩ = []) := by
  refine ⟨fun _ _ _ => rfl, fun _ _ _ => rfl, ?_, fun _ _ _ => rfl,
    fun _ _ _ _ _ => rfl, fun _ _ _ _ _ => rfl, fun _ _ => rfl, fun _ => rfl⟩
  intro id pts
  simp [Geometry.getEntitySegments]

/-- C8: for non-parallel inputs (determinant at least 1e-10 in magnitude),
`lineLineIntersection` is invariant under swapping the two argument lines,
and both calls succeed. -/
theorem lineLineIntersection_swap (p1 p2 p3 p4 : Pt)
    (h : (1e-10 : ℝ) ≤ |(p2.x - p1.x) * (p4.y - p3.y) - (p2.y - p1.y) * (p4.x - p3.x)|) :
    (Geometry.lineLineIntersection p1 p2 p3 p4).isSome = true ∧
    Geometry.lineLineIntersection p1 p2 p3 p4 = Geometry.lineLineIntersection p3 p4 p1 p2 := by
  have hd : (p2.x - p1.x) * (p4.y - p3.y) - (p2.y - p1.y) * (p4.x - p3.x) ≠ 0 := by
    intro h0
    rw [h0] at h
    norm_num at h
  have hswap : (p4.x - p3.x) * (p2.y - p1.y) - (p4.y - p3.y) * (p2.x - p1.x) =
      -((p2.x - p1.x) * (p4.y - p3.y) - (p2.y - p1.y) * (p4.x - p3.x)) := by ring
  have h1 : ¬ |(p2.x - p1.x) * (p4.y - p3.y) - (p2.y - p1.y) * (p4.x - p3.x)| < 1e-10 :=
    not_lt.mpr h
  have h2 : ¬ |(p4.x - p3.x) * (p2.y - p1.y) - (p4.y - p3.y) * (p2.x - p1.x)| < 1e-10 := by
    rw [hswap, abs_neg]
    exact not_lt.mpr h
  unfold Geometry.lineLineIntersection
  rw [if_neg h1, if_neg h2]
  refine ⟨rfl, ?_⟩
  simp only [Option.some.injEq, Pt.mk.injEq, hswap, div_neg]
  constructor
  · field_simp
    ring
  · field_simp
    ring

/-- C5: `trimLine` returns `none` exactly when the line has zero intersection
points with the other entities. -/
theorem trimLine_none_iff (id : ℕ) (p1 p2 clickPoint : Pt) (allEntities : List Entity) :
    Geometry.trimLine id p1 p2 clickPoint allEntities = none ↔
    Geometry.collectCuts ⟨id, .line p1 p2⟩ allEntities = [] := by
  by_cases h : Geometry.collectCuts ⟨id, .line p1 p2⟩ allEntities = [] <;>
    simp [Geometry.trimLine, h]

/-- C9: `trimCircle` returns `none` whenever the circle has fewer than two
intersection points with the other entities (a single intersection is not
enough, unlike `trimLine`). -/
theorem trimCircle_none_of_few_cuts (id : ℕ) (center : Pt) (r : ℝ) (clickPoint : Pt)
    (allEntities : List Entity)
    (h : (Geometry.collectCuts ⟨id, .circle center r⟩ allEntities).length < 2) :
    Geometry.trimCircle id center r clickPoint allEntities = none := by
  simp [Geometry.trimCircle, h]

/-- C8 (witness): the swap invariance applied to the spec's concrete example
lines, whose determinant is 100. -/
theorem lineLineIntersection_swap_witness :
    (Geometry.lineLineIntersection ⟨0, 0⟩ ⟨10, 0⟩ ⟨5, -5⟩ ⟨5, 5⟩).isSome = true ∧
    Geometry.lineLineIntersection ⟨0, 0⟩ ⟨10, 0⟩ ⟨5, -5⟩ ⟨5, 5⟩ =
      Geometry.lineLineIntersection ⟨5, -5⟩ ⟨5, 5⟩ ⟨0, 0⟩ ⟨10, 0⟩ :=
  lineLineIntersection_swap ⟨0, 0⟩ ⟨10, 0⟩ ⟨5, -5⟩ ⟨5, 5⟩ (by norm_num)

/-- C9 (witness): a circle touched by a single tangent line has exactly one
intersection point, and `trimCircle` still fails on it. -/
theorem trimCircle_single_cut_witness :
    Geometry.trimCircle 1 ⟨0, 0⟩ 5 ⟨0, 5⟩ [⟨2, .line ⟨5, -5⟩ ⟨5, 5⟩⟩] = none :=
  trimCircle_none_of_few_cuts 1 ⟨0, 0⟩ 5 ⟨0, 5⟩ [⟨2, .line ⟨5, -5⟩ ⟨5, 5⟩⟩] (by
    norm_num [Geometry.collectCuts, Geometry.findIntersections, Geometry.getEntitySegments,
      Geometry.segmentIntersection, Geometry.lineCircleIntersection, Utils.uniquePoints,
      Utils.vector, Utils.dot])

/-- Sorting helper: the head of a stable merge sort under a transitive and
total boolean relation is a member of the list and is below every element. -/
theorem head_mergeSort_min {α : Type} (le : α → α → Bool)
    (htrans : ∀ a b c, le a b = true → le b c = true → le a c = true)
    (htotal : ∀ a b, (le a b || le b a) = true)
    (l : List α) (c : α) (hc : (l.mergeSort le).head? = some c) :
    c ∈ l ∧ ∀ s ∈ l, le c s = true := by
  have hperm := List.mergeSort_perm l le
  have hsorted := List.sorted_mergeSort htrans htotal l
  rcases hs : l.mergeSort le with _ | ⟨h0, tail⟩
  · rw [hs] at hc
    simp at hc
  · rw [hs] at hc hperm hsorted
    simp only [List.head?_cons, Option.some.injEq] at hc
    constructor
    · rw [← hc]
      exact hperm.mem_iff.mp (List.mem_cons_self _ _)
    · intro s hsl
      have hmem2 : s ∈ h0 :: tail := hperm.mem_iff.mpr hsl
      rcases List.mem_cons.mp hmem2 with heq | htail
      · rw [← hc, heq]
        have htot := htotal h0 h0
        cases hll : le h0 h0
        · rw [hll] at htot
          simp at htot
        · rfl
      · rw [← hc]
        exact (List.pairwise_cons.mp hsorted).1 s htail

/-- The snap comparator is transitive. -/
theorem snapLe_trans (a b c : Snap) (h1 : Geometry.snapLe a b = true)
    (h2 : Geometry.snapLe b c = true) : Geometry.snapLe a c = true := by
  simp only [Geometry.snapLe, decide_eq_true_eq] at *
  rcases h1 with h1 | ⟨h1, h1d⟩ <;> rcases h2 with h2 | ⟨h2, h2d⟩
  · exact Or.inl (h1.trans h2)
  · exact Or.inl (h2 ▸ h1)
  · exact Or.inl (h1 ▸ h2)
  · exact Or.inr ⟨h1.trans h2, h1d.trans h2d⟩

/-- The snap comparator is total. -/
theorem snapLe_total (a b : Snap) : (Geometry.snapLe a b || Geometry.snapLe b a) = true := by
  simp only [Geometry.snapLe, Bool.or_eq_true, decide_eq_true_eq]
  rcases lt_trichotomy (snapPriority a.type) (snapPriority b.type) with h | h | h
  · exact Or.inl (Or.inl h)
  · rcases le_total a.distance b.distance with hd | hd
    · exact Or.inl (Or.inr ⟨h, hd⟩)
    · exact Or.inr (Or.inr ⟨h.symm, hd⟩)
  · exact Or.inr (Or.inl h)

/-- C2: `findSnapPoints` picks the single winning candidate by the fixed
priority order, breaking ties within a kind by distance: whenever candidates
exist, the returned one is a generated candidate that is minimal for
priority-then-distance; in particular, when both an endpoint and a nearest
candidate are generated (both within tolerance of the cursor, the nearest
one possibly strictly closer), the winner is never the nearest candidate,
and it is an endpoint candidate as soon as no intersection candidate (the
only higher-priority kind) is present. -/
theorem findSnapPoints_priority (point : Pt) (entities : List Entity) (snapModes : SnapModes)
    (tolerance gridSize : ℝ) (fromPoint : Option Pt) (cadPoints : List Pt)
    (ha : ∃ a ∈ Geometry.snapCandidates point entities snapModes tolerance gridSize fromPoint
      cadPoints, a.type = .endpoint)
    (hb : ∃ b ∈ Geometry.snapCandidates point entities snapModes tolerance gridSize fromPoint
      cadPoints, b.type = .nearest) :
    ∃ c, Geometry.findSnapPoints point entities snapModes tolerance gridSize fromPoint
        cadPoints = some c ∧
      c ∈ Geometry.snapCandidates point entities snapModes tolerance gridSize fromPoint
        cadPoints ∧
      (∀ s ∈ Geometry.snapCandidates point entities snapModes tolerance gridSize fromPoint
        cadPoints, Geometry.snapLe c s = true) ∧
      c.type ≠ .nearest ∧
      ((∀ s ∈ Geometry.snapCandidates point entities snapModes tolerance gridSize fromPoint
        cadPoints, s.type ≠ .intersection) → c.type = .endpoint) := by
  obtain ⟨a, hal, hat⟩ := ha
  obtain ⟨b, hbl, hbt⟩ := hb
  set S := Geometry.snapCandidates point entities snapModes tolerance gridSize fromPoint
    cadPoints with hSdef
  have hne : S ≠ [] := by
    intro h
    rw [h] at hal
    exact absurd hal (List.not_mem_nil a)
  have hsome : ∃ c, (S.mergeSort Geometry.snapLe).head? = some c := by
    rcases hh : (S.mergeSort Geometry.snapLe).head? with _ | c
    · exfalso
      apply hne
      have := List.head?_eq_none_iff.mp hh
      have hlen := (List.mergeSort_perm S Geometry.snapLe).length_eq
      rw [this] at hlen
      exact List.length_eq_zero.mp hlen.symm
    · exact ⟨c, rfl⟩
  obtain ⟨c, hc⟩ := hsome
  obtain ⟨hmem, hmin⟩ := head_mergeSort_min Geometry.snapLe snapLe_trans snapLe_total S c hc
  refine ⟨c, hc, hmem, hmin, ?_, ?_⟩
  · intro hct
    have hca := hmin a hal
    simp only [Geometry.snapLe, decide_eq_true_eq, hct, hat,
      show snapPriority .nearest = 10 from rfl,
      show snapPriority .endpoint = 1 from rfl] at hca
    rcases hca with hca | ⟨hca, _⟩ <;> omega
  · intro hnoint
    have hca := hmin a hal
    simp only [Geometry.snapLe, decide_eq_true_eq, hat,
      show snapPriority .endpoint = 1 from rfl] at hca
    have hprio : snapPriority c.type ≤ 1 := by
      rcases hca with hca | ⟨hca, _⟩ <;> omega
    cases hctype : c.type
    case intersection => exact absurd hctype (hnoint c hmem)
    case endpoint => rfl
    all_goals rw [hctype] at hprio
    all_goals simp [snapPriority] at hprio

/-- C10: with the grid snap mode enabled, `findSnapPoints` never returns
`none` — the grid candidate is pushed unconditionally, with no tolerance
check, so some candidate always survives to the final pick. -/
theorem findSnapPoints_grid_never_none (point : Pt) (entities : List Entity)
    (snapModes : SnapModes) (tolerance gridSize : ℝ) (fromPoint : Option Pt)
    (cadPoints : List Pt) (h : snapModes.grid = true) :
    (Geometry.findSnapPoints point entities snapModes tolerance gridSize fromPoint
      cadPoints).isSome = true := by
  have hne : Geometry.snapCandidates point entities snapModes tolerance gridSize fromPoint
      cadPoints ≠ [] := by
    simp [Geometry.snapCandidates, h]
  have hlen := (List.mergeSort_perm (Geometry.snapCandidates point entities snapModes tolerance
    gridSize fromPoint cadPoints) Geometry.snapLe).length_eq
  unfold Geometry.findSnapPoints
  rcases hh : (Geometry.snapCandidates point entities snapModes tolerance gridSize fromPoint
      cadPoints).mergeSort Geometry.snapLe with _ | ⟨a, t⟩
  · exfalso
    apply hne
    rw [hh] at hlen
    exact List.length_eq_zero.mp hlen.symm
  · simp [hh]

/-- C10 (witness): the grid-only resolver on an empty drawing still returns a
candidate. -/
theorem findSnapPoints_grid_witness :
    (Geometry.findSnapPoints ⟨0, 0⟩ [] { grid := true } 1 1 none []).isSome = true :=
  findSnapPoints_grid_never_none ⟨0, 0⟩ [] { grid := true } 1 1 none [] rfl

/-- C2 (witness): a cursor on a horizontal line, with endpoint and nearest
modes enabled, generates an endpoint candidate at distance 1 and a nearest
candidate at distance 0 (strictly closer); the resolver still returns the
endpoint candidate. -/
theorem findSnapPoints_priority_witness :
    ∃ c, Geometry.findSnapPoints ⟨1, 0⟩ [⟨1, .line ⟨0, 0⟩ ⟨10, 0⟩⟩]
        { endpoint := true, nearest := true } 2 1 none [] = some c ∧
      c ∈ Geometry.snapCandidates ⟨1, 0⟩ [⟨1, .line ⟨0, 0⟩ ⟨10, 0⟩⟩]
        { endpoint := true, nearest := true } 2 1 none [] ∧
      (∀ s ∈ Geometry.snapCandidates ⟨1, 0⟩ [⟨1, .line ⟨0, 0⟩ ⟨10, 0⟩⟩]
        { endpoint := true, nearest := true } 2 1 none [], Geometry.snapLe c s = true) ∧
      c.type ≠ .nearest ∧
      ((∀ s ∈ Geometry.snapCandidates ⟨1, 0⟩ [⟨1, .line ⟨0, 0⟩ ⟨10, 0⟩⟩]
        { endpoint := true, nearest := true } 2 1 none [], s.type ≠ .intersection) →
        c.type = .endpoint) := by
  have d1 : Utils.dist ⟨1, 0⟩ ⟨0, 0⟩ = 1 := by
    simp only [Utils.dist]
    norm_num
  have d2 : Utils.dist ⟨1, 0⟩ ⟨10, 0⟩ = 9 := by
    simp only [Utils.dist]
    rw [show ((10 : ℝ) - 1) ^ 2 + ((0 : ℝ) - 0) ^ 2 = 9 ^ 2 by norm_num, Real.sqrt_sq]
    norm_num
  have d3 : Utils.dist ⟨1, 0⟩ ⟨1, 0⟩ = 0 := by
    simp [Utils.dist]
  have hnear : Geometry.getNearestPoint ⟨1, 0⟩ ⟨1, .line ⟨0, 0⟩ ⟨10, 0⟩⟩ =
      some ⟨1, 0⟩ := by
    simp only [Geometry.getNearestPoint, Utils.closestPointOnSegment]
    norm_num [min_def, max_def]
  have hS : Geometry.snapCandidates ⟨1, 0⟩ [⟨1, .line ⟨0, 0⟩ ⟨10, 0⟩⟩]
      { endpoint := true, nearest := true } 2 1 none [] =
      [⟨⟨0, 0⟩, .endpoint, 1⟩, ⟨⟨1, 0⟩, .nearest, 0⟩] := by
    norm_num [Geometry.snapCandidates, Geometry.getEndpoints, hnear, d1, d2, d3,
      List.filterMap_cons]
  apply findSnapPoints_priority
  · exact ⟨⟨⟨0, 0⟩, .endpoint, 1⟩, by rw [hS]; simp, rfl⟩
  · exact ⟨⟨⟨1, 0⟩, .nearest, 0⟩, by rw [hS]; simp, rfl⟩

/-- Normalization helper: the JavaScript double-remainder idiom
`((v % y) + y) % y` equals the mathematical floor-mod for positive `y`. -/
theorem jsMod_jsMod_add (x y : ℝ) (hy : 0 < y) :
    jsMod (jsMod x y + y) y = x - y * ⌊x / y⌋ := by
  have hy' : y ≠ 0 := ne_of_gt hy
  obtain ⟨c, hc1, hc2⟩ : ∃ c : ℤ, jsMod x y = x - y * c ∧ (c : ℝ) ≤ x / y + 1 := by
    by_cases h : 0 ≤ x / y
    · exact ⟨⌊x / y⌋, by simp only [jsMod, if_pos h],
        le_trans (Int.floor_le _) (by linarith)⟩
    · exact ⟨⌈x / y⌉, by simp only [jsMod, if_neg h], le_of_lt (Int.ceil_lt_add_one _)⟩
  rw [hc1]
  simp only [jsMod]
  have harg : (x - y * c + y) / y = x / y - c + 1 := by
    field_simp
  rw [harg, if_pos (by linarith : (0 : ℝ) ≤ x / y - c + 1)]
  have hfl : ⌊x / y - c + 1⌋ = ⌊x / y⌋ - c + 1 := by
    rw [show x / y - (c : ℝ) + 1 = x / y + ((1 - c : ℤ) : ℝ) by push_cast; ring,
      Int.floor_add_int]
    omega
  rw [hfl]
  push_cast
  ring

/-- Normalization helper: the `while (v < 0) v += 2π` loop agrees with the
floor-mod normalization exactly on inputs below `2π`. -/
theorem addWhileNeg_eq_norm (x : ℝ) (hx : x < 2 * π) :
    (if x < 0 then x + 2 * π * ⌈-x / (2 * π)⌉ else x) = x - 2 * π * ⌊x / (2 * π)⌋ := by
  have h2pi : (0 : ℝ) < 2 * π := by positivity
  by_cases h : x < 0
  · rw [if_pos h]
    have hceil : (⌈-x / (2 * π)⌉ : ℤ) = -⌊x / (2 * π)⌋ := by
      rw [show -x / (2 * π) = -(x / (2 * π)) by ring, Int.ceil_neg]
    rw [hceil]
    push_cast
    ring
  · rw [if_neg h]
    push_neg at h
    have hfl : ⌊x / (2 * π)⌋ = 0 := by
      rw [Int.floor_eq_zero_iff]
      constructor
      · exact div_nonneg h (le_of_lt h2pi)
      · rw [div_lt_one h2pi]
        exact hx
    rw [hfl]
    push_cast
    ring

/-- The JavaScript `Math.atan2` has range `(-π, π]`. -/
theorem atan2_range (y x : ℝ) : -π < Utils.atan2 y x ∧ Utils.atan2 y x ≤ π := by
  have hpi : 0 < π := Real.pi_pos
  unfold Utils.atan2
  by_cases h1 : 0 < x
  · rw [if_pos h1]
    have ha := Real.neg_pi_div_two_lt_arctan (y / x)
    have hb := Real.arctan_lt_pi_div_two (y / x)
    constructor <;> linarith
  · rw [if_neg h1]
    by_cases h2 : x < 0
    · rw [if_pos h2]
      by_cases h3 : 0 ≤ y
      · rw [if_pos h3]
        have ha := Real.neg_pi_div_two_lt_arctan (y / x)
        have hb : Real.arctan (y / x) ≤ 0 := by
          rw [← Real.arctan_zero]
          exact Real.arctan_strictMono.monotone (div_nonpos_of_nonneg_of_nonpos h3 (le_of_lt h2))
        constructor <;> linarith
      · rw [if_neg h3]
        push_neg at h3
        have hb := Real.arctan_lt_pi_div_two (y / x)
        have ha : 0 < Real.arctan (y / x) := by
          rw [← Real.arctan_zero]
          exact Real.arctan_strictMono (div_pos_of_neg_of_neg h3 h2)
        constructor <;> linarith
    · rw [if_neg h2]
      by_cases h3 : 0 < y
      · rw [if_pos h3]
        constructor <;> linarith
      · rw [if_neg h3]
        by_cases h4 : y < 0
        · rw [if_pos h4]
          constructor <;> linarith
        · rw [if_neg h4]
          constructor <;> linarith

/-- C6 (counterexample): for an arc with `start = 7` (above `2π`) and
`end = 1`, `isPointOnArc` leaves `start` un-normalized (its loop only pushes
negative values up), so the point at angle `0` is accepted, while the
normalize-to-`[0, 2π)`-then-test predicate of the claim rejects it. -/
theorem isPointOnArc_not_normalizing :
    Geometry.isPointOnArc ⟨1, 0⟩ ⟨0, 0⟩ 7 1 = true ∧
    specArcMembership (Utils.atan2 (0 - 0) (1 - 0)) 7 1 = false := by
  have hpi1 := Real.pi_gt_3141592
  have hpi2 := Real.pi_lt_315
  have hat : Utils.atan2 (0 : ℝ) 1 = 0 := by
    unfold Utils.atan2
    norm_num
  constructor
  · simp only [Geometry.isPointOnArc]
    norm_num [hat]
  · have hf7 : ⌊(7 : ℝ) / (2 * π)⌋ = 1 := by
      rw [Int.floor_eq_iff]
      constructor
      · rw [Int.cast_one, le_div_iff (by positivity)]
        linarith
      · rw [div_lt_iff (by positivity)]
        push_cast
        linarith
    have hf1 : ⌊(1 : ℝ) / (2 * π)⌋ = 0 := by
      rw [Int.floor_eq_zero_iff]
      constructor
      · positivity
      · rw [div_lt_one (by positivity)]
        linarith
    rw [show (0 : ℝ) - 0 = 0 by norm_num, show (1 : ℝ) - 0 = 1 by norm_num, hat]
    simp only [specArcMembership, hf7, hf1]
    norm_num
    constructor <;> linarith

/-- C6 (amended): `_angleInArc` normalizes all three angles to `[0, 2π)` and
tests with the wrap-around disjunction for `start > end`, exactly as the
claim states; `isPointOnArc`, whose loop normalization only pushes negative
values up by `2π`, agrees with the fully-normalizing test whenever `start`
and `end` are below `2π` (the tested angle, produced by `atan2`, always is). -/
theorem arcMembership_normalized :
    (∀ angle start end_ : ℝ,
      Geometry.angleInArc angle start end_ = specArcMembership angle start end_) ∧
    (∀ (point center : Pt) (start end_ : ℝ), start < 2 * π → end_ < 2 * π →
      Geometry.isPointOnArc point center start end_ =
        specArcMembership (Utils.atan2 (point.y - center.y) (point.x - center.x))
          start end_) := by
  have h2pi : (0 : ℝ) < 2 * π := by positivity
  constructor
  · intro angle start end_
    simp only [Geometry.angleInArc, specArcMembership]
    rw [jsMod_jsMod_add angle _ h2pi, jsMod_jsMod_add start _ h2pi,
      jsMod_jsMod_add end_ _ h2pi]
  · intro point center start end_ hs he
    have hangle := atan2_range (point.y - center.y) (point.x - center.x)
    have hangle2 : Utils.atan2 (point.y - center.y) (point.x - center.x) < 2 * π := by
      have := Real.pi_pos
      linarith [hangle.2]
    simp only [Geometry.isPointOnArc, specArcMembership]
    simp only [addWhileNeg_eq_norm start hs, addWhileNeg_eq_norm end_ he,
      addWhileNeg_eq_norm _ hangle2]

/-- C6 (witness): on an arc with angles already below `2π`, `isPointOnArc`
agrees with the fully-normalizing membership test. -/
theorem arcMembership_normalized_witness :
    Geometry.isPointOnArc ⟨1, 0⟩ ⟨0, 0⟩ 0 3 =
      specArcMembership (Utils.atan2 (0 - 0) (1 - 0)) 0 3 :=
  arcMembership_normalized.2 ⟨1, 0⟩ ⟨0, 0⟩ 0 3 (by positivity)
    (by linarith [Real.pi_gt_3141592])

/-- The modelled distance is reflexive-zero. -/
theorem udist_self (a : Pt) : Utils.dist a a = 0 := by
  simp [Utils.dist]

/-- The modelled distance is nonnegative. -/
theorem udist_nonneg (a b : Pt) : 0 ≤ Utils.dist a b :=
  Real.sqrt_nonneg _

/-- Pipeline helper shared by the trim theorems: on a line with exactly one
collected cut, strictly interior and non-degenerate, `trimLine` emits the
single sub-segment away from the click. -/
theorem trimLine_pipeline (id : ℕ) (p1 p2 q clickPoint : Pt) (others : List Entity)
    (hcut : Geometry.collectCuts ⟨id, .line p1 p2⟩ others = [q])
    (hd1 : (0.001 : ℝ) < Utils.dist p1 q)
    (hd2 : (0.001 : ℝ) < Utils.dist q p2)
    (hD : Utils.dist p1 q + Utils.dist q p2 = Utils.dist p1 p2) :
    if Utils.dist clickPoint (Utils.midpoint q p2) <
        Utils.dist clickPoint (Utils.midpoint p1 q) then
      Geometry.trimLine id p1 p2 clickPoint others = some [.line p1 q] ∧
      Utils.dist p1 q = Utils.dist p1 p2 - Utils.dist q p2
    else
      Geometry.trimLine id p1 p2 clickPoint others = some [.line q p2] ∧
      Utils.dist q p2 = Utils.dist p1 p2 - Utils.dist p1 q := by
  have hq2 : (0 : ℝ) ≤ Utils.dist q p2 := udist_nonneg q p2
  have hq1 : (0 : ℝ) ≤ Utils.dist p1 q := udist_nonneg p1 q
  have hmil : (1e-6 : ℝ) < 0.001 := by norm_num
  have hs1 : ¬ (Utils.dist p1 q ≤ Utils.dist p1 p1) := by
    rw [udist_self]
    linarith
  have hs2 : Utils.dist p1 p1 ≤ Utils.dist p1 p2 := by
    rw [udist_self]
    linarith
  have hs3 : Utils.dist p1 q ≤ Utils.dist p1 p2 := by linarith
  have hu1 : ¬ (Utils.dist p1 q < 1e-6) := by linarith
  have hu2 : ¬ (Utils.dist p1 p2 < 1e-6) := by linarith
  have hu3 : ¬ (Utils.dist q p2 < 1e-6) := by linarith
  have hf1 : ¬ (Utils.dist p1 q < 0.001) := by linarith
  have hf2 : ¬ (Utils.dist q p2 < 0.001) := by linarith
  have hsort : List.mergeSort [q, p1, p2]
      (fun a b => decide (Utils.dist p1 a ≤ Utils.dist p1 b)) = [p1, q, p2] := by
    simp [List.mergeSort, List.merge, hs1, hs2, hs3]
  have hdedup : Utils.uniquePoints [p1, q, p2] = [p1, q, p2] := by
    simp [Utils.uniquePoints, hu1, hu2, hu3]
  by_cases hclick : Utils.dist clickPoint (Utils.midpoint q p2) <
      Utils.dist clickPoint (Utils.midpoint p1 q)
  · rw [if_pos hclick]
    refine ⟨?_, by linarith⟩
    have hargmin : argminFirst [Utils.dist clickPoint (Utils.midpoint p1 q),
        Utils.dist clickPoint (Utils.midpoint q p2)] = some 1 := by
      simp [argminFirst, hclick]
    simp only [Geometry.trimLine, hcut, jsSortBy, List.cons_append, List.nil_append,
      hsort, hdedup, List.zip_cons_cons, List.tail_cons, List.zip_nil_right,
      List.map_cons, List.map_nil, List.enum, List.enumFrom, hargmin]
    rw [if_neg (by simp : ¬ ([q] = []))]
    simp [hf1, hf2]
  · rw [if_neg hclick]
    refine ⟨?_, by linarith⟩
    have hargmin : argminFirst [Utils.dist clickPoint (Utils.midpoint p1 q),
        Utils.dist clickPoint (Utils.midpoint q p2)] = some 0 := by
      simp [argminFirst, hclick]
    simp only [Geometry.trimLine, hcut, jsSortBy, List.cons_append, List.nil_append,
      hsort, hdedup, List.zip_cons_cons, List.tail_cons, List.zip_nil_right,
      List.map_cons, List.map_nil, List.enum, List.enumFrom, hargmin]
    rw [if_neg (by simp : ¬ ([q] = []))]
    simp [hf1, hf2]

/-- Evaluation helper: the single intersection of the C3 example line with
its crossing line. -/
theorem c3_cut_eval :
    Geometry.collectCuts ⟨1, .line ⟨0, 0⟩ ⟨10, 0⟩⟩ [⟨2, .line ⟨5, -5⟩ ⟨5, 5⟩⟩] =
      [⟨5, 0⟩] := by
  norm_num [Geometry.collectCuts, Geometry.findIntersections, Geometry.getEntitySegments,
    Geometry.segmentIntersection, Geometry.segmentSegmentIntersection, Utils.uniquePoints]

/-- Evaluation helper: the distances of the C3 example configuration. -/
theorem c3_dist_eval :
    Utils.dist ⟨0, 0⟩ ⟨5, 0⟩ = 5 ∧ Utils.dist ⟨5, 0⟩ ⟨10, 0⟩ = 5 ∧
    Utils.dist ⟨0, 0⟩ ⟨10, 0⟩ = 10 ∧
    Utils.dist ⟨2, 0⟩ (Utils.midpoint ⟨0, 0⟩ ⟨5, 0⟩) = 1 / 2 ∧
    Utils.dist ⟨2, 0⟩ (Utils.midpoint ⟨5, 0⟩ ⟨10, 0⟩) = 11 / 2 := by
  refine ⟨?_, ?_, ?_, ?_, ?_⟩
  · simp only [Utils.dist]
    rw [show ((5 : ℝ) - 0) ^ 2 + ((0 : ℝ) - 0) ^ 2 = 5 ^ 2 by norm_num,
      Real.sqrt_sq (by norm_num : (0 : ℝ) ≤ 5)]
  · simp only [Utils.dist]
    rw [show ((10 : ℝ) - 5) ^ 2 + ((0 : ℝ) - 0) ^ 2 = 5 ^ 2 by norm_num,
      Real.sqrt_sq (by norm_num : (0 : ℝ) ≤ 5)]
  · simp only [Utils.dist]
    rw [show ((10 : ℝ) - 0) ^ 2 + ((0 : ℝ) - 0) ^ 2 = 10 ^ 2 by norm_num,
      Real.sqrt_sq (by norm_num : (0 : ℝ) ≤ 10)]
  · simp only [Utils.dist, Utils.midpoint]
    rw [show (((0 : ℝ) + 5) / 2 - 2) ^ 2 + (((0 : ℝ) + 0) / 2 - 0) ^ 2 = (1 / 2) ^ 2 by
      norm_num, Real.sqrt_sq (by norm_num : (0 : ℝ) ≤ 1 / 2)]
  · simp only [Utils.dist, Utils.midpoint]
    rw [show (((5 : ℝ) + 10) / 2 - 2) ^ 2 + (((0 : ℝ) + 0) / 2 - 0) ^ 2 = (11 / 2) ^ 2 by
      norm_num, Real.sqrt_sq (by norm_num : (0 : ℝ) ≤ 11 / 2)]

/-- C3 (counterexample): a line crossed by exactly one other entity at one
interior point yields ONE new line entity, not the two the claim asserts,
and the dropped clicked sub-segment has length 5 — not near-zero. -/
theorem trimLine_single_cut_one_piece :
    Geometry.trimLine 1 ⟨0, 0⟩ ⟨10, 0⟩ ⟨2, 0⟩ [⟨2, .line ⟨5, -5⟩ ⟨5, 5⟩⟩] =
      some [.line ⟨5, 0⟩ ⟨10, 0⟩] ∧
    ([Shape.line ⟨5, 0⟩ ⟨10, 0⟩] : List Shape).length = 1 := by
  obtain ⟨e1, e2, e3, e4, e5⟩ := c3_dist_eval
  have h := trimLine_pipeline 1 ⟨0, 0⟩ ⟨10, 0⟩ ⟨5, 0⟩ ⟨2, 0⟩ [⟨2, .line ⟨5, -5⟩ ⟨5, 5⟩⟩]
    c3_cut_eval (by rw [e1]; norm_num) (by rw [e2]; norm_num)
    (by rw [e1, e2, e3]; norm_num)
  rw [if_neg (by rw [e4, e5]; norm_num)] at h
  exact ⟨h.1, rfl⟩

/-- C3 (amended): on a line with exactly one collected intersection point,
strictly interior (both sub-segments longer than the 1e-3 degeneracy cutoff,
and the cut lying on the segment so that the two sub-lengths add up to the
original length), `trimLine` emits exactly ONE new line entity — the
sub-segment away from the click — whose length is the original length minus
the dropped clicked sub-segment's length. -/
theorem trimLine_one_interior_cut (id : ℕ) (p1 p2 q clickPoint : Pt) (others : List Entity)
    (hcut : Geometry.collectCuts ⟨id, .line p1 p2⟩ others = [q])
    (hd1 : (0.001 : ℝ) < Utils.dist p1 q)
    (hd2 : (0.001 : ℝ) < Utils.dist q p2)
    (hD : Utils.dist p1 q + Utils.dist q p2 = Utils.dist p1 p2) :
    if Utils.dist clickPoint (Utils.midpoint q p2) <
        Utils.dist clickPoint (Utils.midpoint p1 q) then
      Geometry.trimLine id p1 p2 clickPoint others = some [.line p1 q] ∧
      Utils.dist p1 q = Utils.dist p1 p2 - Utils.dist q p2
    else
      Geometry.trimLine id p1 p2 clickPoint others = some [.line q p2] ∧
      Utils.dist q p2 = Utils.dist p1 p2 - Utils.dist p1 q :=
  trimLine_pipeline id p1 p2 q clickPoint others hcut hd1 hd2 hD

/-- C3 (witness): the amended statement applied to the concrete crossed-line
example — one emitted piece of length 5 = 10 − 5. -/
theorem trimLine_one_interior_cut_witness :
    Geometry.trimLine 1 ⟨0, 0⟩ ⟨10, 0⟩ ⟨2, 0⟩ [⟨2, .line ⟨5, -5⟩ ⟨5, 5⟩⟩] =
      some [.line ⟨5, 0⟩ ⟨10, 0⟩] ∧
    Utils.dist ⟨5, 0⟩ ⟨10, 0⟩ = Utils.dist ⟨0, 0⟩ ⟨10, 0⟩ - Utils.dist ⟨0, 0⟩ ⟨5, 0⟩ := by
  obtain ⟨e1, e2, e3, e4, e5⟩ := c3_dist_eval
  have h := trimLine_one_interior_cut 1 ⟨0, 0⟩ ⟨10, 0⟩ ⟨5, 0⟩ ⟨2, 0⟩
    [⟨2, .line ⟨5, -5⟩ ⟨5, 5⟩⟩] c3_cut_eval (by rw [e1]; norm_num) (by rw [e2]; norm_num)
    (by rw [e1, e2, e3]; norm_num)
  rw [if_neg (by rw [e4, e5]; norm_num)] at h
  exact h

set_option maxHeartbeats 1000000 in
/-- C1 (counterexample): an entity whose bounding box sticks out of the tree
boundary is successfully inserted, yet a query range that meets the box only
outside the boundary is pruned at the root: `retrieve` (with a seen-set)
returns nothing while the brute-force scan returns the entity. -/
theorem quadtree_retrieve_misses_overhanging_box :
    qinsert 5 (.leaf ⟨0, 0, 10, 10⟩ 4 []) ⟨1, ⟨5, 0, 15, 10⟩⟩ =
      some (.leaf ⟨0, 0, 10, 10⟩ 4 [⟨1, ⟨5, 0, 15, 10⟩⟩]) ∧
    (qretrieve (.leaf ⟨0, 0, 10, 10⟩ 4 [⟨1, ⟨5, 0, 15, 10⟩⟩]) ⟨12, 0, 2, 10⟩
      ([], some [])).1 = [] ∧
    bruteForceRetrieve [⟨1, ⟨5, 0, 15, 10⟩⟩] ⟨12, 0, 2, 10⟩ = [⟨1, ⟨5, 0, 15, 10⟩⟩] := by
  refine ⟨?_, ?_, ?_⟩
  · show qinsert (4 + 1) (.leaf ⟨0, 0, 10, 10⟩ 4 []) ⟨1, ⟨5, 0, 15, 10⟩⟩ = _
    norm_num [qinsert, bboxIntersects, QT.boundary]
  · norm_num [qretrieve, Rectangle.intersects, QT.boundary, QT.entities]
  · norm_num [bruteForceRetrieve, bboxIntersects, List.filter]

/-- A common point makes the bounding-box intersection predicate true. -/
theorem bboxIntersects_of_point {p : ℚ × ℚ} {b : BBox} {r : Rectangle}
    (hb : ptInBox p b) (hr : ptInRect p r) : bboxIntersects b r = true := by
  obtain ⟨h1, h2, h3, h4⟩ := hb
  obtain ⟨g1, g2, g3, g4⟩ := hr
  simp only [bboxIntersects, Bool.not_eq_true', Bool.or_eq_false_iff,
    decide_eq_false_iff_not, not_lt]
  refine ⟨⟨⟨?_, ?_⟩, ?_⟩, ?_⟩ <;> linarith

/-- A true bounding-box intersection of a well-formed box with a
nonnegative-size rectangle yields a common point. -/
theorem point_of_bboxIntersects {b : BBox} {r : Rectangle}
    (hwfx : b.minX ≤ b.maxX) (hwfy : b.minY ≤ b.maxY)
    (hW : 0 ≤ r.width) (hH : 0 ≤ r.height)
    (h : bboxIntersects b r = true) :
    ∃ p, ptInBox p b ∧ ptInRect p r := by
  simp only [bboxIntersects, Bool.not_eq_true', Bool.or_eq_false_iff,
    decide_eq_false_iff_not, not_lt] at h
  obtain ⟨⟨⟨h1, h2⟩, h3⟩, h4⟩ := h
  refine ⟨(max b.minX r.x, max b.minY r.y), ⟨?_, ?_, ?_, ?_⟩, ⟨?_, ?_, ?_, ?_⟩⟩
  · exact le_max_left _ _
  · exact max_le hwfx h2
  · exact le_max_left _ _
  · exact max_le hwfy h4
  · exact le_max_right _ _
  · exact max_le h1 (by linarith)
  · exact le_max_right _ _
  · exact max_le h3 (by linarith)

/-- A common point makes the rectangle intersection predicate true. -/
theorem rectIntersects_of_point {p : ℚ × ℚ} {a r : Rectangle}
    (ha : ptInRect p a) (hr : ptInRect p r) : a.intersects r = true := by
  obtain ⟨h1, h2, h3, h4⟩ := ha
  obtain ⟨g1, g2, g3, g4⟩ := hr
  simp only [Rectangle.intersects, Bool.not_eq_true', Bool.or_eq_false_iff,
    decide_eq_false_iff_not, not_lt]
  refine ⟨⟨⟨?_, ?_⟩, ?_⟩, ?_⟩ <;> linarith

/-- The four closed quadrants cover the parent rectangle. -/
theorem quadCover {b : Rectangle} {p : ℚ × ℚ} (hp : ptInRect p b) :
    ptInRect p ⟨b.x, b.y, b.width / 2, b.height / 2⟩ ∨
    ptInRect p ⟨b.x + b.width / 2, b.y, b.width / 2, b.height / 2⟩ ∨
    ptInRect p ⟨b.x, b.y + b.height / 2, b.width / 2, b.height / 2⟩ ∨
    ptInRect p ⟨b.x + b.width / 2, b.y + b.height / 2, b.width / 2, b.height / 2⟩ := by
  obtain ⟨h1, h2, h3, h4⟩ := hp
  rcases le_or_lt p.1 (b.x + b.width / 2) with hx | hx <;>
    rcases le_or_lt p.2 (b.y + b.height / 2) with hy | hy
  · exact Or.inl ⟨h1, hx, h3, hy⟩
  · exact Or.inr (Or.inr (Or.inl ⟨h1, hx, le_of_lt hy, by linarith⟩))
  · exact Or.inr (Or.inl ⟨le_of_lt hx, by linarith, h3, hy⟩)
  · exact Or.inr (Or.inr (Or.inr ⟨le_of_lt hx, by linarith, le_of_lt hy, by linarith⟩))

/-- Each closed quadrant is contained in its nonnegative-size parent. -/
theorem quadSubset {b : Rectangle} {p : ℚ × ℚ} (hW : 0 ≤ b.width) (hH : 0 ≤ b.height)
    (h : ptInRect p ⟨b.x, b.y, b.width / 2, b.height / 2⟩ ∨
      ptInRect p ⟨b.x + b.width / 2, b.y, b.width / 2, b.height / 2⟩ ∨
      ptInRect p ⟨b.x, b.y + b.height / 2, b.width / 2, b.height / 2⟩ ∨
      ptInRect p ⟨b.x + b.width / 2, b.y + b.height / 2, b.width / 2, b.height / 2⟩) :
    ptInRect p b := by
  rcases h with ⟨h1, h2, h3, h4⟩ | ⟨h1, h2, h3, h4⟩ | ⟨h1, h2, h3, h4⟩ | ⟨h1, h2, h3, h4⟩ <;>
    exact ⟨by linarith, by linarith, by linarith, by linarith⟩

/-- A well-formed box meets the nonnegative-size parent rectangle exactly
when it meets one of the four quadrants. -/
theorem childMatch_iff {e : QEnt} {b : Rectangle} (hwf : e.wf)
    (hW : 0 ≤ b.width) (hH : 0 ≤ b.height) :
    (bboxIntersects e.box ⟨b.x, b.y, b.width / 2, b.height / 2⟩ = true ∨
     bboxIntersects e.box ⟨b.x + b.width / 2, b.y, b.width / 2, b.height / 2⟩ = true ∨
     bboxIntersects e.box ⟨b.x, b.y + b.height / 2, b.width / 2, b.height / 2⟩ = true ∨
     bboxIntersects e.box ⟨b.x + b.width / 2, b.y + b.height / 2, b.width / 2,
       b.height / 2⟩ = true) ↔
    bboxIntersects e.box b = true := by
  have hw2 : (0 : ℚ) ≤ b.width / 2 := by linarith
  have hh2 : (0 : ℚ) ≤ b.height / 2 := by linarith
  constructor
  · intro h
    rcases h with h | h | h | h <;>
      obtain ⟨p, hpb, hpr⟩ := point_of_bboxIntersects hwf.1 hwf.2 hw2 hh2 h
    · exact bboxIntersects_of_point hpb (quadSubset hW hH (Or.inl hpr))
    · exact bboxIntersects_of_point hpb (quadSubset hW hH (Or.inr (Or.inl hpr)))
    · exact bboxIntersects_of_point hpb (quadSubset hW hH (Or.inr (Or.inr (Or.inl hpr))))
    · exact bboxIntersects_of_point hpb (quadSubset hW hH (Or.inr (Or.inr (Or.inr hpr))))
  · intro h
    obtain ⟨p, hpb, hpr⟩ := point_of_bboxIntersects hwf.1 hwf.2 hW hH h
    rcases quadCover hpr with hq | hq | hq | hq
    · exact Or.inl (bboxIntersects_of_point hpb hq)
    · exact Or.inr (Or.inl (bboxIntersects_of_point hpb hq))
    · exact Or.inr (Or.inr (Or.inl (bboxIntersects_of_point hpb hq)))
    · exact Or.inr (Or.inr (Or.inr (bboxIntersects_of_point hpb hq)))

/-- Nothing is stored in a freshly subdivided node. -/
theorem stored_subdivided_false (b : Rectangle) (c : ℕ) (y : QEnt) :
    ¬ QT.stored y (QT.subdivided b c) := by
  simp [QT.subdivided, QT.stored]

/-- A freshly subdivided node satisfies the structural invariant. -/
theorem inv_subdivided (b : Rectangle) (c : ℕ) (hW : 0 ≤ b.width) (hH : 0 ≤ b.height) :
    QT.Inv (QT.subdivided b c) := by
  simp only [QT.subdivided]
  refine ⟨hW, hH, rfl, rfl, rfl, rfl, rfl,
    ⟨by linarith, by linarith, by simp⟩, ⟨by linarith, by linarith, by simp⟩,
    ⟨by linarith, by linarith, by simp⟩, ⟨by linarith, by linarith, by simp⟩, ?_, ?_⟩
  · intro y hy
    rcases hy with h | h | h | h <;> simp [QT.stored] at h
  · intro y hy
    rcases hy with h | h | h | h <;> simp [QT.stored] at h


/-- The conditional child-insert of `_insertIntoChildren`: on success the
child keeps its boundary and invariant, and stores exactly the old content
plus the new entity when the entity's box meets the child boundary. -/
theorem condInsert_spec {ins : QT → QEnt → Option QT}
    (hP : ∀ t e t', QT.Inv t → QEnt.wf e → ins t e = some t' →
      t'.boundary = t.boundary ∧ QT.Inv t' ∧
      (∀ y, QT.stored y t' ↔
        (QT.stored y t ∨ (y = e ∧ bboxIntersects e.box t.boundary = true))))
    {ch : QT} {e : QEnt} {ch' : QT} (hInv : QT.Inv ch) (hwf : QEnt.wf e)
    (h : (if bboxIntersects e.box ch.boundary then ins ch e else some ch) = some ch') :
    ch'.boundary = ch.boundary ∧ QT.Inv ch' ∧
      (∀ y, QT.stored y ch' ↔
        (QT.stored y ch ∨ (y = e ∧ bboxIntersects e.box ch.boundary = true))) := by
  by_cases m : bboxIntersects e.box ch.boundary = true
  · rw [if_pos m] at h
    exact hP ch e ch' hInv hwf h
  · rw [if_neg m] at h
    obtain rfl : ch = ch' := by simpa using h
    refine ⟨rfl, hInv, fun y => ?_⟩
    simp [m]

/-- Unfolding equation of `qinsertChildrenStep` at a divided node. -/
theorem qinsertChildrenStep_node_eq (ins : QT → QEnt → Option QT) (b : Rectangle) (c : ℕ)
    (ents : List QEnt) (nw ne sw se : QT) (e : QEnt) :
    qinsertChildrenStep ins (.node b c ents nw ne sw se) e =
      match (if bboxIntersects e.box nw.boundary then ins nw e else some nw) with
      | none => none
      | some nw' =>
        match (if bboxIntersects e.box ne.boundary then ins ne e else some ne) with
        | none => none
        | some ne' =>
          match (if bboxIntersects e.box sw.boundary then ins sw e else some sw) with
          | none => none
          | some sw' =>
            match (if bboxIntersects e.box se.boundary then ins se e else some se) with
            | none => none
            | some se' => some (.node b c ents nw' ne' sw' se') := rfl

set_option maxHeartbeats 1000000 in
/-- Specification of `_insertIntoChildren` on a divided node: the node keeps
its shape, the invariant is preserved, and the subtree stores exactly the old
content plus the new entity when its box meets the node boundary. -/
theorem qinsertChildrenStep_spec {ins : QT → QEnt → Option QT}
    (hP : ∀ t e t', QT.Inv t → QEnt.wf e → ins t e = some t' →
      t'.boundary = t.boundary ∧ QT.Inv t' ∧
      (∀ y, QT.stored y t' ↔
        (QT.stored y t ∨ (y = e ∧ bboxIntersects e.box t.boundary = true))))
    {b : Rectangle} {c : ℕ} {ents : List QEnt} {nw ne sw se : QT} {e : QEnt} {t' : QT}
    (hInv : QT.Inv (.node b c ents nw ne sw se)) (hwf : QEnt.wf e)
    (h : qinsertChildrenStep ins (.node b c ents nw ne sw se) e = some t') :
    (∃ nw' ne' sw' se', t' = .node b c ents nw' ne' sw' se') ∧ QT.Inv t' ∧
      (∀ y, QT.stored y t' ↔ (QT.stored y (.node b c ents nw ne sw se) ∨
        (y = e ∧ bboxIntersects e.box b = true))) := by
  obtain ⟨hW, hH, hents, hbnw, hbne, hbsw, hbse, hInw, hIne, hIsw, hIse, hwfst, hcov⟩ := hInv
  rw [qinsertChildrenStep_node_eq] at h
  split at h
  · exact absurd h (by simp)
  next nw' hnw =>
  split at h
  · exact absurd h (by simp)
  next ne' hne2 =>
  split at h
  · exact absurd h (by simp)
  next sw' hsw =>
  split at h
  · exact absurd h (by simp)
  next se' hse =>
  obtain rfl : QT.node b c ents nw' ne' sw' se' = t' := by simpa using h
  obtain ⟨hbnw', hInw', hsnw⟩ := condInsert_spec hP hInw hwf hnw
  obtain ⟨hbne', hIne', hsne⟩ := condInsert_spec hP hIne hwf hne2
  obtain ⟨hbsw', hIsw', hssw⟩ := condInsert_spec hP hIsw hwf hsw
  obtain ⟨hbse', hIse', hsse⟩ := condInsert_spec hP hIse hwf hse
  have hmatch : (bboxIntersects e.box nw.boundary = true ∨
      bboxIntersects e.box ne.boundary = true ∨
      bboxIntersects e.box sw.boundary = true ∨
      bboxIntersects e.box se.boundary = true) ↔ bboxIntersects e.box b = true := by
    rw [hbnw, hbne, hbsw, hbse]
    exact childMatch_iff hwf hW hH
  refine ⟨⟨nw', ne', sw', se', rfl⟩, ?_, ?_⟩
  · refine ⟨hW, hH, hents, by rw [hbnw', hbnw], by rw [hbne', hbne], by rw [hbsw', hbsw],
      by rw [hbse', hbse], hInw', hIne', hIsw', hIse', ?_, ?_⟩
    · intro y hy
      rcases hy with hy | hy | hy | hy
      · rcases (hsnw y).mp hy with hold | ⟨rfl, _⟩
        · exact hwfst y (Or.inl hold)
        · exact hwf
      · rcases (hsne y).mp hy with hold | ⟨rfl, _⟩
        · exact hwfst y (Or.inr (Or.inl hold))
        · exact hwf
      · rcases (hssw y).mp hy with hold | ⟨rfl, _⟩
        · exact hwfst y (Or.inr (Or.inr (Or.inl hold)))
        · exact hwf
      · rcases (hsse y).mp hy with hold | ⟨rfl, _⟩
        · exact hwfst y (Or.inr (Or.inr (Or.inr hold)))
        · exact hwf
    · intro y hy
      have hyold : (QT.stored y nw ∨ QT.stored y ne ∨ QT.stored y sw ∨ QT.stored y se) ∨
          y = e := by
        rcases hy with hy | hy | hy | hy
        · rcases (hsnw y).mp hy with hold | ⟨rfl, _⟩
          · exact Or.inl (Or.inl hold)
          · exact Or.inr rfl
        · rcases (hsne y).mp hy with hold | ⟨rfl, _⟩
          · exact Or.inl (Or.inr (Or.inl hold))
          · exact Or.inr rfl
        · rcases (hssw y).mp hy with hold | ⟨rfl, _⟩
          · exact Or.inl (Or.inr (Or.inr (Or.inl hold)))
          · exact Or.inr rfl
        · rcases (hsse y).mp hy with hold | ⟨rfl, _⟩
          · exact Or.inl (Or.inr (Or.inr (Or.inr hold)))
          · exact Or.inr rfl
      refine ⟨?_, ?_, ?_, ?_⟩
      · intro hm
        rw [hbnw'] at hm
        rcases hyold with hold | rfl
        · exact (hsnw y).mpr (Or.inl ((hcov y hold).1 hm))
        · exact (hsnw y).mpr (Or.inr ⟨rfl, hm⟩)
      · intro hm
        rw [hbne'] at hm
        rcases hyold with hold | rfl
        · exact (hsne y).mpr (Or.inl ((hcov y hold).2.1 hm))
        · exact (hsne y).mpr (Or.inr ⟨rfl, hm⟩)
      · intro hm
        rw [hbsw'] at hm
        rcases hyold with hold | rfl
        · exact (hssw y).mpr (Or.inl ((hcov y hold).2.2.1 hm))
        · exact (hssw y).mpr (Or.inr ⟨rfl, hm⟩)
      · intro hm
        rw [hbse'] at hm
        rcases hyold with hold | rfl
        · exact (hsse y).mpr (Or.inl ((hcov y hold).2.2.2 hm))
        · exact (hsse y).mpr (Or.inr ⟨rfl, hm⟩)
  · intro y
    simp only [QT.stored]
    rw [hsnw y, hsne y, hssw y, hsse y]
    constructor
    · rintro (h | (h | ⟨rfl, hm1⟩) | (h | ⟨rfl, hm1⟩) | (h | ⟨rfl, hm1⟩) | (h | ⟨rfl, hm1⟩))
      · exact Or.inl (Or.inl h)
      · exact Or.inl (Or.inr (Or.inl h))
      · exact Or.inr ⟨rfl, hmatch.mp (Or.inl hm1)⟩
      · exact Or.inl (Or.inr (Or.inr (Or.inl h)))
      · exact Or.inr ⟨rfl, hmatch.mp (Or.inr (Or.inl hm1))⟩
      · exact Or.inl (Or.inr (Or.inr (Or.inr (Or.inl h))))
      · exact Or.inr ⟨rfl, hmatch.mp (Or.inr (Or.inr (Or.inl hm1)))⟩
      · exact Or.inl (Or.inr (Or.inr (Or.inr (Or.inr h))))
      · exact Or.inr ⟨rfl, hmatch.mp (Or.inr (Or.inr (Or.inr hm1)))⟩
    · rintro ((h | h | h | h | h) | ⟨rfl, hmb⟩)
      · exact Or.inl h
      · exact Or.inr (Or.inl (Or.inl h))
      · exact Or.inr (Or.inr (Or.inl (Or.inl h)))
      · exact Or.inr (Or.inr (Or.inr (Or.inl (Or.inl h))))
      · exact Or.inr (Or.inr (Or.inr (Or.inr (Or.inl h))))
      · rcases hmatch.mpr hmb with h1 | h1 | h1 | h1
        · exact Or.inr (Or.inl (Or.inr ⟨rfl, h1⟩))
        · exact Or.inr (Or.inr (Or.inl (Or.inr ⟨rfl, h1⟩)))
        · exact Or.inr (Or.inr (Or.inr (Or.inl (Or.inr ⟨rfl, h1⟩))))
        · exact Or.inr (Or.inr (Or.inr (Or.inr (Or.inr ⟨rfl, h1⟩))))

/-- Specification of the post-subdivision redistribution loop: the node keeps
its shape and invariant and ends up storing exactly the old content plus the
redistributed entities (each of which is well formed and meets the node
boundary). -/
theorem qreinsertGo_spec {ins : QT → QEnt → Option QT}
    (hP : ∀ t e t', QT.Inv t → QEnt.wf e → ins t e = some t' →
      t'.boundary = t.boundary ∧ QT.Inv t' ∧
      (∀ y, QT.stored y t' ↔
        (QT.stored y t ∨ (y = e ∧ bboxIntersects e.box t.boundary = true)))) :
    ∀ (es : List QEnt) (b : Rectangle) (c : ℕ) (ents : List QEnt) (nw ne sw se : QT)
      (t' : QT), QT.Inv (.node b c ents nw ne sw se) →
      (∀ x ∈ es, QEnt.wf x ∧ bboxIntersects x.box b = true) →
      qreinsertGo ins (.node b c ents nw ne sw se) es = some t' →
      (∃ nw' ne' sw' se', t' = .node b c ents nw' ne' sw' se') ∧ QT.Inv t' ∧
        (∀ y, QT.stored y t' ↔ (QT.stored y (.node b c ents nw ne sw se) ∨ y ∈ es))
  | [], b, c, ents, nw, ne, sw, se, t', hInv, _, h => by
      obtain rfl : QT.node b c ents nw ne sw se = t' := by
        simpa [qreinsertGo] using h
      exact ⟨⟨nw, ne, sw, se, rfl⟩, hInv, fun y => by simp⟩
  | x :: rest, b, c, ents, nw, ne, sw, se, t', hInv, hes, h => by
      rw [show qreinsertGo ins (QT.node b c ents nw ne sw se) (x :: rest) =
        (match qinsertChildrenStep ins (QT.node b c ents nw ne sw se) x with
         | none => none
         | some t1 => qreinsertGo ins t1 rest) from rfl] at h
      split at h
      · exact absurd h (by simp)
      next t1 hstep =>
      obtain ⟨hx, hrest⟩ : (QEnt.wf x ∧ bboxIntersects x.box b = true) ∧
          (∀ z ∈ rest, QEnt.wf z ∧ bboxIntersects z.box b = true) :=
        ⟨hes x (List.mem_cons_self _ _), fun z hz => hes z (List.mem_cons_of_mem x hz)⟩
      obtain ⟨⟨nw1, ne1, sw1, se1, rfl⟩, hInv1, hs1⟩ :=
        qinsertChildrenStep_spec hP hInv hx.1 hstep
      obtain ⟨hshape, hInv2, hs2⟩ :=
        qreinsertGo_spec hP rest b c ents nw1 ne1 sw1 se1 t' hInv1 hrest h
      refine ⟨hshape, hInv2, fun y => ?_⟩
      rw [hs2 y, hs1 y]
      constructor
      · rintro ((hst | ⟨rfl, _⟩) | hmem)
        · exact Or.inl hst
        · exact Or.inr (List.mem_cons_self _ _)
        · exact Or.inr (List.mem_cons_of_mem x hmem)
      · rintro (hst | hmem)
        · exact Or.inl (Or.inl hst)
        · rcases List.mem_cons.mp hmem with rfl | hmem
          · exact Or.inl (Or.inr ⟨rfl, hx.2⟩)
          · exact Or.inr hmem

/-- Unfolding equation of `qinsert` on a leaf, with fuel available. -/
theorem qinsert_succ_leaf_eq (fuel : ℕ) (b : Rectangle) (c : ℕ) (ents : List QEnt)
    (e : QEnt) :
    qinsert (fuel + 1) (.leaf b c ents) e =
      if bboxIntersects e.box b = false then some (.leaf b c ents)
      else if ents.length < c then some (.leaf b c (ents ++ [e]))
      else
        match qreinsertGo (qinsert fuel) (QT.subdivided b c) ents with
        | none => none
        | some t1 => qinsertChildrenStep (qinsert fuel) t1 e := rfl

/-- Unfolding equation of `qinsert` on a divided node, with fuel available. -/
theorem qinsert_succ_node_eq (fuel : ℕ) (b : Rectangle) (c : ℕ) (ents : List QEnt)
    (nw ne sw se : QT) (e : QEnt) :
    qinsert (fuel + 1) (.node b c ents nw ne sw se) e =
      if bboxIntersects e.box b = false then some (.node b c ents nw ne sw se)
      else qinsertChildrenStep (qinsert fuel) (.node b c ents nw ne sw se) e := rfl

/-- Specification of `QuadTree.insert`: on success the boundary and invariant
are preserved and the subtree stores exactly the old content plus the new
entity when its box meets the boundary (otherwise the entity is dropped). -/
theorem qinsert_spec : ∀ (fuel : ℕ) (t : QT) (e : QEnt) (t' : QT),
    QT.Inv t → QEnt.wf e → qinsert fuel t e = some t' →
    t'.boundary = t.boundary ∧ QT.Inv t' ∧
    (∀ y, QT.stored y t' ↔
      (QT.stored y t ∨ (y = e ∧ bboxIntersects e.box t.boundary = true))) := by
  intro fuel
  induction fuel with
  | zero =>
      intro t e t' _ _ h
      exact absurd h (by simp [show qinsert 0 t e = none from rfl])
  | succ fuel IH =>
      intro t e t' hInv hwf h
      cases t with
      | leaf b c ents =>
          rw [qinsert_succ_leaf_eq] at h
          obtain ⟨hW, hH, hents⟩ := hInv
          by_cases hm : bboxIntersects e.box b = false
          · rw [if_pos hm] at h
            obtain rfl : QT.leaf b c ents = t' := by simpa using h
            refine ⟨rfl, ⟨hW, hH, hents⟩, fun y => ?_⟩
            simp [QT.stored, QT.boundary, hm]
          · rw [if_neg hm] at h
            have hmT : bboxIntersects e.box b = true := by
              cases hb : bboxIntersects e.box b
              · exact absurd hb hm
              · rfl
            by_cases hlen : ents.length < c
            · rw [if_pos hlen] at h
              obtain rfl : QT.leaf b c (ents ++ [e]) = t' := by simpa using h
              refine ⟨rfl, ⟨hW, hH, ?_⟩, fun y => ?_⟩
              · intro x hx
                rcases List.mem_append.mp hx with hx | hx
                · exact hents x hx
                · rw [List.mem_singleton.mp hx]
                  exact ⟨hwf, hmT⟩
              · simp only [QT.stored, QT.boundary, List.mem_append, List.mem_singleton, hmT,
                  and_true]
            · rw [if_neg hlen] at h
              split at h
              · exact absurd h (by simp)
              next t1 hre =>
              have hsub : QT.subdivided b c =
                  QT.node b c [] (.leaf ⟨b.x, b.y, b.width / 2, b.height / 2⟩ c [])
                    (.leaf ⟨b.x + b.width / 2, b.y, b.width / 2, b.height / 2⟩ c [])
                    (.leaf ⟨b.x, b.y + b.height / 2, b.width / 2, b.height / 2⟩ c [])
                    (.leaf ⟨b.x + b.width / 2, b.y + b.height / 2, b.width / 2,
                      b.height / 2⟩ c []) := rfl
              have hInv0 := inv_subdivided b c hW hH
              rw [hsub] at hre hInv0
              obtain ⟨⟨nw1, ne1, sw1, se1, rfl⟩, hInv1, hs1⟩ :=
                qreinsertGo_spec IH ents b c [] _ _ _ _ t1 hInv0
                  (fun x hx => ⟨(hents x hx).1, (hents x hx).2⟩) hre
              obtain ⟨⟨nw2, ne2, sw2, se2, rfl⟩, hInv2, hs2⟩ :=
                qinsertChildrenStep_spec IH hInv1 hwf h
              refine ⟨rfl, hInv2, fun y => ?_⟩
              rw [hs2 y, hs1 y]
              have hempty : ∀ z, ¬ QT.stored z
                  (QT.node b c [] (.leaf ⟨b.x, b.y, b.width / 2, b.height / 2⟩ c [])
                    (.leaf ⟨b.x + b.width / 2, b.y, b.width / 2, b.height / 2⟩ c [])
                    (.leaf ⟨b.x, b.y + b.height / 2, b.width / 2, b.height / 2⟩ c [])
                    (.leaf ⟨b.x + b.width / 2, b.y + b.height / 2, b.width / 2,
                      b.height / 2⟩ c [])) := by
                intro z
                rw [← hsub]
                exact stored_subdivided_false b c z
              constructor
              · rintro ((hst | hmem) | ⟨rfl, hM⟩)
                · exact absurd hst (hempty y)
                · exact Or.inl hmem
                · exact Or.inr ⟨rfl, hM⟩
              · rintro (hmem | ⟨rfl, hM⟩)
                · exact Or.inl (Or.inr hmem)
                · exact Or.inr ⟨rfl, hM⟩
      | node b c ents nw ne sw se =>
          rw [qinsert_succ_node_eq] at h
          by_cases hm : bboxIntersects e.box b = false
          · rw [if_pos hm] at h
            obtain rfl : QT.node b c ents nw ne sw se = t' := by simpa using h
            refine ⟨rfl, hInv, fun y => ?_⟩
            simp [QT.boundary, hm]
          · rw [if_neg hm] at h
            obtain ⟨⟨nw2, ne2, sw2, se2, rfl⟩, hInv2, hs2⟩ :=
              qinsertChildrenStep_spec IH hInv hwf h
            exact ⟨rfl, hInv2, hs2⟩

/-- Folding the insert step from a `none` accumulator stays `none`. -/
theorem qinsertAll_go_none (fuel : ℕ) : ∀ es : List QEnt,
    es.foldl (fun acc e => acc.bind fun tt => qinsert fuel tt e) none = none := by
  intro es
  induction es with
  | nil => rfl
  | cons e rest IH =>
      simp only [List.foldl_cons, Option.none_bind]
      exact IH

/-- Unfolding equation of `qinsertAll` on a cons. -/
theorem qinsertAll_cons (fuel : ℕ) (t : QT) (e : QEnt) (es : List QEnt) :
    qinsertAll fuel t (e :: es) =
      match qinsert fuel t e with
      | none => none
      | some t1 => qinsertAll fuel t1 es := by
  simp only [qinsertAll, List.foldl_cons, Option.some_bind]
  cases h : qinsert fuel t e with
  | none => exact qinsertAll_go_none fuel es
  | some t1 => rfl

/-- Specification of inserting a whole list of entities: on success the
boundary and invariant are preserved and the tree stores exactly the old
content plus every inserted entity whose box meets the root boundary. -/
theorem qinsertAll_spec : ∀ (es : List QEnt) (fuel : ℕ) (t t' : QT),
    QT.Inv t → (∀ e ∈ es, QEnt.wf e) → qinsertAll fuel t es = some t' →
    t'.boundary = t.boundary ∧ QT.Inv t' ∧
    (∀ y, QT.stored y t' ↔
      (QT.stored y t ∨ (y ∈ es ∧ bboxIntersects y.box t.boundary = true))) := by
  intro es
  induction es with
  | nil =>
      intro fuel t t' hInv _ h
      obtain rfl : t = t' := Option.some.inj h
      exact ⟨rfl, hInv, by simp⟩
  | cons e rest IH =>
      intro fuel t t' hInv hwf h
      rw [qinsertAll_cons] at h
      cases hq : qinsert fuel t e with
      | none => rw [hq] at h; exact absurd h (by simp)
      | some t1 =>
          rw [hq] at h
          obtain ⟨hb1, hInv1, hs1⟩ :=
            qinsert_spec fuel t e t1 hInv (hwf e (List.mem_cons_self _ _)) hq
          obtain ⟨hb2, hInv2, hs2⟩ :=
            IH fuel t1 t' hInv1 (fun x hx => hwf x (List.mem_cons_of_mem _ hx)) h
          refine ⟨hb2.trans hb1, hInv2, fun y => ?_⟩
          rw [hs2 y, hs1 y, hb1]
          constructor
          · rintro ((hst | ⟨rfl, hM⟩) | ⟨hmem, hM⟩)
            · exact Or.inl hst
            · exact Or.inr ⟨List.mem_cons_self _ _, hM⟩
            · exact Or.inr ⟨List.mem_cons_of_mem _ hmem, hM⟩
          · rintro (hst | ⟨hmem, hM⟩)
            · exact Or.inl (Or.inl hst)
            · rcases List.mem_cons.mp hmem with rfl | hmem
              · exact Or.inl (Or.inr ⟨rfl, hM⟩)
              · exact Or.inr ⟨hmem, hM⟩

/-- Specification of the entity-scanning loop of `retrieve` with a live seen
set kept equal to the output: the loop keeps the two synchronized, collects
exactly the old output plus the scanned entities whose box meets the range,
and preserves freedom from duplicates. -/
theorem qscan_spec (range : Rectangle) : ∀ (es : List QEnt) (out : List QEnt),
    ∃ out', List.foldl (qscanStep range) (out, some out) es = (out', some out') ∧
      (∀ y, y ∈ out' ↔ (y ∈ out ∨ (y ∈ es ∧ bboxIntersects y.box range = true))) ∧
      (out.Nodup → out'.Nodup) := by
  intro es
  induction es with
  | nil =>
      intro out
      exact ⟨out, rfl, by simp, id⟩
  | cons e rest IH =>
      intro out
      by_cases hm : bboxIntersects e.box range = true
      · by_cases hin : e ∈ out
        · have hstep : qscanStep range (out, some out) e = (out, some out) := by
            simp [qscanStep, hm, hin]
          obtain ⟨out', heq, hmem, hnd⟩ := IH out
          refine ⟨out', by rw [List.foldl_cons, hstep]; exact heq, fun y => ?_, hnd⟩
          rw [hmem y]
          constructor
          · rintro (h | ⟨h1, h2⟩)
            · exact Or.inl h
            · exact Or.inr ⟨List.mem_cons_of_mem _ h1, h2⟩
          · rintro (h | ⟨h1, h2⟩)
            · exact Or.inl h
            · rcases List.mem_cons.mp h1 with rfl | h1
              · exact Or.inl hin
              · exact Or.inr ⟨h1, h2⟩
        · have hstep : qscanStep range (out, some out) e =
              (out ++ [e], some (out ++ [e])) := by
            simp [qscanStep, hm, hin]
          obtain ⟨out', heq, hmem, hnd⟩ := IH (out ++ [e])
          refine ⟨out', by rw [List.foldl_cons, hstep]; exact heq, fun y => ?_, ?_⟩
          · rw [hmem y]
            simp only [List.mem_append, List.mem_cons, List.not_mem_nil, or_false]
            constructor
            · rintro ((h | rfl) | ⟨h1, h2⟩)
              · exact Or.inl h
              · exact Or.inr ⟨Or.inl rfl, hm⟩
              · exact Or.inr ⟨Or.inr h1, h2⟩
            · rintro (h | ⟨rfl | h1, h2⟩)
              · exact Or.inl (Or.inl h)
              · exact Or.inl (Or.inr rfl)
              · exact Or.inr ⟨h1, h2⟩
          · intro hndout
            refine hnd ?_
            rw [List.nodup_append]
            refine ⟨hndout, List.nodup_singleton e, fun a ha hae => ?_⟩
            rw [List.mem_singleton.mp hae] at ha
            exact hin ha
      · have hmF : bboxIntersects e.box range = false := by
          cases hb : bboxIntersects e.box range
          · rfl
          · exact absurd hb hm
        have hstep : qscanStep range (out, some out) e = (out, some out) := by
          simp [qscanStep, hmF]
        obtain ⟨out', heq, hmem, hnd⟩ := IH out
        refine ⟨out', by rw [List.foldl_cons, hstep]; exact heq, fun y => ?_, hnd⟩
        rw [hmem y]
        constructor
        · rintro (h | ⟨h1, h2⟩)
          · exact Or.inl h
          · exact Or.inr ⟨List.mem_cons_of_mem _ h1, h2⟩
        · rintro (h | ⟨h1, h2⟩)
          · exact Or.inl h
          · rcases List.mem_cons.mp h1 with rfl | h1
            · exact absurd h2 hm
            · exact Or.inr ⟨h1, h2⟩

/-- Unfolding equation of `qretrieve` on a leaf. -/
theorem qretrieve_leaf_eq (b : Rectangle) (c : ℕ) (es : List QEnt) (range : Rectangle)
    (acc : List QEnt × Option (List QEnt)) :
    qretrieve (.leaf b c es) range acc =
      if Rectangle.intersects b range = false then acc
      else es.foldl (qscanStep range) acc := rfl

/-- Unfolding equation of `qretrieve` on a divided node. -/
theorem qretrieve_node_eq (b : Rectangle) (c : ℕ) (es : List QEnt) (nw ne sw se : QT)
    (range : Rectangle) (acc : List QEnt × Option (List QEnt)) :
    qretrieve (.node b c es nw ne sw se) range acc =
      if Rectangle.intersects b range = false then acc
      else
        qretrieve se range (qretrieve sw range (qretrieve ne range
          (qretrieve nw range (es.foldl (qscanStep range) acc)))) := rfl

/-- Soundness of `retrieve` run with a seen set synchronized with the output:
the seen set stays synchronized, the old output is kept, every reported
entity is old or stored in the subtree with a box meeting the range, and
duplicate-freedom is preserved. -/
theorem qretrieve_sound : ∀ (t : QT) (range : Rectangle) (out : List QEnt),
    ∃ out', qretrieve t range (out, some out) = (out', some out') ∧
      (∀ y, y ∈ out → y ∈ out') ∧
      (∀ y, y ∈ out' → y ∈ out ∨ (QT.stored y t ∧ bboxIntersects y.box range = true)) ∧
      (out.Nodup → out'.Nodup) := by
  intro t
  induction t with
  | leaf b c es =>
      intro range out
      rw [qretrieve_leaf_eq]
      by_cases hpr : Rectangle.intersects b range = false
      · rw [if_pos hpr]
        exact ⟨out, rfl, fun y h => h, fun y h => Or.inl h, id⟩
      · rw [if_neg hpr]
        obtain ⟨out', heq, hmem, hnd⟩ := qscan_spec range es out
        refine ⟨out', heq, fun y h => (hmem y).mpr (Or.inl h), fun y h => ?_, hnd⟩
        rcases (hmem y).mp h with h | ⟨h1, h2⟩
        · exact Or.inl h
        · exact Or.inr ⟨h1, h2⟩
  | node b c es nw ne sw se IHnw IHne IHsw IHse =>
      intro range out
      rw [qretrieve_node_eq]
      by_cases hpr : Rectangle.intersects b range = false
      · rw [if_pos hpr]
        exact ⟨out, rfl, fun y h => h, fun y h => Or.inl h, id⟩
      · rw [if_neg hpr]
        obtain ⟨out0, heq0, hmem0, hnd0⟩ := qscan_spec range es out
        rw [heq0]
        obtain ⟨out1, heq1, hmo1, hso1, hnd1⟩ := IHnw range out0
        rw [heq1]
        obtain ⟨out2, heq2, hmo2, hso2, hnd2⟩ := IHne range out1
        rw [heq2]
        obtain ⟨out3, heq3, hmo3, hso3, hnd3⟩ := IHsw range out2
        rw [heq3]
        obtain ⟨out4, heq4, hmo4, hso4, hnd4⟩ := IHse range out3
        rw [heq4]
        refine ⟨out4, rfl, ?_, ?_, fun h => hnd4 (hnd3 (hnd2 (hnd1 (hnd0 h))))⟩
        · intro y h
          exact hmo4 y (hmo3 y (hmo2 y (hmo1 y ((hmem0 y).mpr (Or.inl h)))))
        · intro y h
          rcases hso4 y h with h | ⟨hst, hbb⟩
          · rcases hso3 y h with h | ⟨hst, hbb⟩
            · rcases hso2 y h with h | ⟨hst, hbb⟩
              · rcases hso1 y h with h | ⟨hst, hbb⟩
                · rcases (hmem0 y).mp h with h | ⟨h1, h2⟩
                  · exact Or.inl h
                  · exact Or.inr ⟨Or.inl h1, h2⟩
                · exact Or.inr ⟨Or.inr (Or.inl hst), hbb⟩
              · exact Or.inr ⟨Or.inr (Or.inr (Or.inl hst)), hbb⟩
            · exact Or.inr ⟨Or.inr (Or.inr (Or.inr (Or.inl hst))), hbb⟩
          · exact Or.inr ⟨Or.inr (Or.inr (Or.inr (Or.inr hst))), hbb⟩

/-- Completeness of `retrieve` on an invariant-satisfying tree: an entity
stored in the subtree whose box shares a point with both the query range and
the node's boundary is reported. -/
theorem qretrieve_complete : ∀ (t : QT) (range : Rectangle) (out : List QEnt)
    (y : QEnt) (p : ℚ × ℚ),
    QT.Inv t → QT.stored y t → ptInBox p y.box → ptInRect p range →
    ptInRect p t.boundary →
    y ∈ (qretrieve t range (out, some out)).1 := by
  intro t
  induction t with
  | leaf b c es =>
      intro range out y p hInv hst hpb hprange hpbd
      rw [qretrieve_leaf_eq]
      have hpr : Rectangle.intersects b range = true := rectIntersects_of_point hpbd hprange
      rw [if_neg (by simp [hpr])]
      obtain ⟨out', heq, hmem, _⟩ := qscan_spec range es out
      rw [heq]
      exact (hmem y).mpr (Or.inr ⟨hst, bboxIntersects_of_point hpb hprange⟩)
  | node b c es nw ne sw se IHnw IHne IHsw IHse =>
      intro range out y p hInv hst hpb hprange hpbd
      obtain ⟨hW, hH, hes, hbnw, hbne, hbsw, hbse, hInw, hIne, hIsw, hIse, _, hcover⟩ := hInv
      rw [qretrieve_node_eq]
      have hpr : Rectangle.intersects b range = true := rectIntersects_of_point hpbd hprange
      rw [if_neg (by simp [hpr])]
      subst hes
      have hsc : List.foldl (qscanStep range) (out, some out) ([] : List QEnt) =
          (out, some out) := rfl
      rw [hsc]
      have hstC : QT.stored y nw ∨ QT.stored y ne ∨ QT.stored y sw ∨ QT.stored y se := by
        simp only [QT.stored, List.not_mem_nil, false_or] at hst
        exact hst
      rcases quadCover hpbd with hq | hq | hq | hq
      · have hq' : ptInRect p nw.boundary := by rw [hbnw]; exact hq
        have hstnw : QT.stored y nw :=
          (hcover y hstC).1 (bboxIntersects_of_point hpb hq')
        have h1 : y ∈ (qretrieve nw range (out, some out)).1 :=
          IHnw range out y p hInw hstnw hpb hprange hq'
        obtain ⟨out1, heq1, _, _, _⟩ := qretrieve_sound nw range out
        rw [heq1]
        rw [heq1] at h1
        obtain ⟨out2, heq2, hmo2, _, _⟩ := qretrieve_sound ne range out1
        rw [heq2]
        obtain ⟨out3, heq3, hmo3, _, _⟩ := qretrieve_sound sw range out2
        rw [heq3]
        obtain ⟨out4, heq4, hmo4, _, _⟩ := qretrieve_sound se range out3
        rw [heq4]
        exact hmo4 y (hmo3 y (hmo2 y h1))
      · have hq' : ptInRect p ne.boundary := by rw [hbne]; exact hq
        have hstne : QT.stored y ne :=
          (hcover y hstC).2.1 (bboxIntersects_of_point hpb hq')
        obtain ⟨out1, heq1, _, _, _⟩ := qretrieve_sound nw range out
        rw [heq1]
        have h2 : y ∈ (qretrieve ne range (out1, some out1)).1 :=
          IHne range out1 y p hIne hstne hpb hprange hq'
        obtain ⟨out2, heq2, _, _, _⟩ := qretrieve_sound ne range out1
        rw [heq2]
        rw [heq2] at h2
        obtain ⟨out3, heq3, hmo3, _, _⟩ := qretrieve_sound sw range out2
        rw [heq3]
        obtain ⟨out4, heq4, hmo4, _, _⟩ := qretrieve_sound se range out3
        rw [heq4]
        exact hmo4 y (hmo3 y h2)
      · have hq' : ptInRect p sw.boundary := by rw [hbsw]; exact hq
        have hstsw : QT.stored y sw :=
          (hcover y hstC).2.2.1 (bboxIntersects_of_point hpb hq')
        obtain ⟨out1, heq1, _, _, _⟩ := qretrieve_sound nw range out
        rw [heq1]
        obtain ⟨out2, heq2, _, _, _⟩ := qretrieve_sound ne range out1
        rw [heq2]
        have h3 : y ∈ (qretrieve sw range (out2, some out2)).1 :=
          IHsw range out2 y p hIsw hstsw hpb hprange hq'
        obtain ⟨out3, heq3, _, _, _⟩ := qretrieve_sound sw range out2
        rw [heq3]
        rw [heq3] at h3
        obtain ⟨out4, heq4, hmo4, _, _⟩ := qretrieve_sound se range out3
        rw [heq4]
        exact hmo4 y h3
      · have hq' : ptInRect p se.boundary := by rw [hbse]; exact hq
        have hstse : QT.stored y se :=
          (hcover y hstC).2.2.2 (bboxIntersects_of_point hpb hq')
        obtain ⟨out1, heq1, _, _, _⟩ := qretrieve_sound nw range out
        rw [heq1]
        obtain ⟨out2, heq2, _, _, _⟩ := qretrieve_sound ne range out1
        rw [heq2]
        obtain ⟨out3, heq3, _, _, _⟩ := qretrieve_sound sw range out2
        rw [heq3]
        exact IHse range out3 y p hIse hstse hpb hprange hq'

/-- C1 (amended): for a QuadTree built over a nonnegative-size boundary from
entities with well-formed bounding boxes contained in that boundary, when
every insertion succeeds within the call-stack budget and the query range has
nonnegative dimensions, `retrieve(range)` run with a seen-set returns, with
no duplicates, exactly the set of inserted entities whose bounding box
intersects the range — the set the brute-force `bboxIntersects` filter
produces.  (The unamended claim fails for entity boxes overhanging the root
boundary: see the counterexample.) -/
theorem quadtree_retrieve_exact (fuel : ℕ) (b : Rectangle) (c : ℕ)
    (es : List QEnt) (range : Rectangle) (t : QT)
    (hW : 0 ≤ b.width) (hH : 0 ≤ b.height)
    (hRW : 0 ≤ range.width) (hRH : 0 ≤ range.height)
    (hwf : ∀ e ∈ es, QEnt.wf e ∧ e.box.insideRect b)
    (hins : qinsertAll fuel (.leaf b c []) es = some t) :
    (qretrieve t range ([], some [])).1.Nodup ∧
    ∀ y, y ∈ (qretrieve t range ([], some [])).1 ↔ y ∈ bruteForceRetrieve es range := by
  have hInv0 : QT.Inv (QT.leaf b c []) := ⟨hW, hH, by simp⟩
  obtain ⟨hbd, hInvT, hsT⟩ :=
    qinsertAll_spec es fuel _ t hInv0 (fun e he => (hwf e he).1) hins
  obtain ⟨outF, heqF, hmoF, hsoF, hndF⟩ := qretrieve_sound t range []
  constructor
  · rw [heqF]
    exact hndF List.nodup_nil
  · intro y
    rw [heqF]
    show y ∈ outF ↔ _
    constructor
    · intro h
      rcases hsoF y h with h | ⟨hst, hbb⟩
      · exact absurd h (List.not_mem_nil y)
      · rcases (hsT y).mp hst with hst0 | ⟨hmem, _⟩
        · exact absurd hst0 (List.not_mem_nil y)
        · exact List.mem_filter.mpr ⟨hmem, hbb⟩
    · intro h
      obtain ⟨hmem, hbb⟩ := List.mem_filter.mp h
      obtain ⟨hywf, hyin⟩ := hwf y hmem
      obtain ⟨p, hpb, hprange⟩ := point_of_bboxIntersects hywf.1 hywf.2 hRW hRH hbb
      have hpbrect : ptInRect p b := by
        obtain ⟨i1, i2, i3, i4⟩ := hyin
        obtain ⟨j1, j2, j3, j4⟩ := hpb
        exact ⟨by linarith, by linarith, by linarith, by linarith⟩
      have hstT : QT.stored y t := (hsT y).mpr
        (Or.inr ⟨hmem, bboxIntersects_of_point hpb hpbrect⟩)
      have hpbdT : ptInRect p t.boundary := by
        rw [hbd]
        exact hpbrect
      have hdone := qretrieve_complete t range [] y p hInvT hstT hpb hprange hpbdT
      rw [heqF] at hdone
      exact hdone

/-- Witness for the amended C1 theorem: a concrete one-entity tree over the
boundary `[0,10]²`, queried with the range `[0,4]²`. -/
theorem quadtree_retrieve_exact_witness :
    (qretrieve (.leaf ⟨0, 0, 10, 10⟩ 4 [⟨1, ⟨2, 2, 3, 3⟩⟩]) ⟨0, 0, 4, 4⟩
        ([], some [])).1.Nodup ∧
    ∀ y, y ∈ (qretrieve (.leaf ⟨0, 0, 10, 10⟩ 4 [⟨1, ⟨2, 2, 3, 3⟩⟩]) ⟨0, 0, 4, 4⟩
        ([], some [])).1 ↔
      y ∈ bruteForceRetrieve [⟨1, ⟨2, 2, 3, 3⟩⟩] ⟨0, 0, 4, 4⟩ :=
  quadtree_retrieve_exact 1 ⟨0, 0, 10, 10⟩ 4 [⟨1, ⟨2, 2, 3, 3⟩⟩] ⟨0, 0, 4, 4⟩
    (.leaf ⟨0, 0, 10, 10⟩ 4 [⟨1, ⟨2, 2, 3, 3⟩⟩])
    (by norm_num) (by norm_num) (by norm_num) (by norm_num)
    (by norm_num [QEnt.wf, BBox.insideRect])
    (by rw [show (1 : ℕ) = 0 + 1 from rfl, qinsertAll_cons, qinsert_succ_leaf_eq]
        norm_num [bboxIntersects, qinsertAll])
